import Mathlib

/-!
TskFileAnalysisPipeline.

A shallow embedding of `framework/Pipeline/TskFileAnalysisPipeline.cpp` (The Sleuth Kit
framework): the two `run` overloads of the file analysis pipeline, over an explicit
state made of the file handle, the image database and a log of the calls `run` makes
to its collaborators.  An exception is a value: a fragment of code either finishes or
throws, and in both cases hands on the state it reached.
-/

namespace Tsk

/-- Modelled from the spec: the file status enumeration `TskImgDB::FILE_STATUS`, declared in
the image database header; `CREATED` is the upstream "not yet ready" state. -/
inductive FILE_STATUS
  | CREATED
  | READY_FOR_ANALYSIS
  | ANALYSIS_IN_PROGRESS
  | ANALYSIS_COMPLETE
  | ANALYSIS_FAILED
  | ANALYSIS_SKIPPED
  deriving DecidableEq, Repr

/-- Modelled from the spec: the provenance enumeration `TskImgDB::FILE_TYPES`, declared in
the image database header; only `CARVED` and `DERIVED` are told apart from the rest. -/
inductive FILE_TYPES
  | FS
  | CARVED
  | DERIVED
  | UNUSED
  deriving DecidableEq, Repr

/-- Modelled from the spec: the module outcome `TskModule::Status`, declared in the module
header. -/
inductive Status
  | OK
  | FAIL
  | STOP
  deriving DecidableEq, Repr

/-- A thrown `std::exception`: the null pointer exception `run` throws itself, or an exception
of a collaborator, identified by its `what()`. -/
inductive Fault
  | TskNullPointerException
  | exception (what : Nat)
  deriving DecidableEq, Repr

/-- Modelled from the spec: the file handle `TskFile`, declared in the file header, with what
`id()`, `typeId()`, `status()` and `exists()` return. -/
structure TskFile where
  id : Nat
  typeId : FILE_TYPES
  status : FILE_STATUS
  fileExists : Bool
  deriving DecidableEq, Repr

/-- One call that `run` makes to a collaborator, with its arguments; a module call also keeps
the handle the module was given and what it returned (`none` when it threw). -/
inductive Event
  | getFile (fileId : Nat)
  | logNullPointer
  | excludeFile (fileId : Nat)
  | setStatus (fileId : Nat) (status : FILE_STATUS)
  | saveFile (fileId : Nat)
  | moduleRun (moduleId : Nat) (seen : TskFile) (returned : Option Status)
  | setModuleStatus (fileId moduleId : Nat) (status : Status)
  | deleteFile (fileId : Nat)
  | logError (fileId : Nat) (what : Fault)
  | updateFileStatus (fileId : Nat) (status : FILE_STATUS)
  deriving DecidableEq, Repr

/-- The image database (`TskImgDB`): the persisted status of every file and the table of
module status records, in the order they were written; and the log of the calls made. -/
structure World where
  fileStatus : Nat → FILE_STATUS
  moduleStatus : List (Nat × Nat × Status)
  log : List Event

/-- Modelled from the spec: what one invocation of a module does, as far as the pipeline can
tell: it may set the status of the file, it leaves the file on disk or not, and it returns a
status or throws. -/
structure ModuleEffect where
  newStatus : Option FILE_STATUS
  fileExists : Bool
  result : Except Fault Status

/-- Modelled from the spec: an analysis module `TskModule`, with `getModuleId()` and `run(file)`;
what the module does may depend on the handle and on the database. -/
structure TskModule where
  moduleId : Nat
  run : TskFile → World → ModuleEffect

/-- Modelled from the spec: the collaborators of the pipeline that can fail. `getFile` is
`TskFileManagerImpl::getFile`, `excludeFile` is `TskPipeline::excludeFile`; for the others the
function tells whether the call throws (`some e`) in the given state: `TskFile::setStatus`,
`TskFileManagerImpl::saveFile`, `TskFileManagerImpl::deleteFile`, `TskImgDB::setModuleStatus`. -/
structure Services where
  getFile : Nat → World → Except Fault (Option TskFile)
  excludeFile : TskFile → World → Except Fault Bool
  setStatus : TskFile → FILE_STATUS → World → Option Fault
  saveFile : TskFile → World → Option Fault
  deleteFile : TskFile → World → Option Fault
  setModuleStatus : Nat → Nat → Status → World → Option Fault

/-- The members of `TskFileAnalysisPipeline` that `run` reads. -/
structure TskFileAnalysisPipeline where
  m_modules : List TskModule
  m_hasExeModule : Bool

/-- The result of a fragment of code: it finished with a value, or it threw. -/
inductive Step (α : Type)
  | done (a : α) (file : TskFile) (world : World)
  | threw (e : Fault) (file : TskFile) (world : World)

/-- What a call of `run` leaves behind: the handle, the state, and the exception that left
`run`, if any. -/
structure Outcome where
  file : Option TskFile
  world : World
  raised : Option Fault

def Step.file {α : Type} : Step α → TskFile
  | .done _ f _ => f
  | .threw _ f _ => f

def Step.world {α : Type} : Step α → World
  | .done _ _ w => w
  | .threw _ _ w => w

def Step.thrown {α : Type} : Step α → Option Fault
  | .done _ _ _ => none
  | .threw e _ _ => some e

def Step.value {α : Type} : Step α → Option α
  | .done a _ _ => some a
  | .threw _ _ _ => none

/-- Sequencing of two fragments: an exception of the first skips the second. -/
def Step.andThen {α β : Type} (r : Step α) (k : α → TskFile → World → Step β) : Step β :=
  match r with
  | .done a f w => k a f w
  | .threw e f w => .threw e f w

def World.emit (w : World) (ev : Event) : World :=
  { w with log := w.log ++ [ev] }

/-- Modelled from the spec: `TskImgDB::updateFileStatus`, the commit of a file status. -/
def World.updateFileStatus (w : World) (fileId : Nat) (s : FILE_STATUS) : World :=
  { w with fileStatus := Function.update w.fileStatus fileId s }

/-- Modelled from the spec: `TskImgDB::setModuleStatus`, which adds one module record. -/
def World.setModuleStatus (w : World) (fileId moduleId : Nat) (s : Status) : World :=
  { w with moduleStatus := w.moduleStatus ++ [(fileId, moduleId, s)] }

/-- Modelled from the spec: `file->setStatus(s)` sets the status of the handle and commits it
to the database, or throws and changes nothing. -/
def setStatus (env : Services) (s : FILE_STATUS) (f : TskFile) (w : World) : Step Unit :=
  match env.setStatus f s w with
  | some e => .threw e f (w.emit (.setStatus f.id s))
  | none => .done () { f with status := s } ((w.emit (.setStatus f.id s)).updateFileStatus f.id s)

/-- Modelled from the spec: `saveFile(file)` puts the content of the file on disk, or throws. -/
def saveFile (env : Services) (f : TskFile) (w : World) : Step Unit :=
  match env.saveFile f w with
  | some e => .threw e f (w.emit (.saveFile f.id))
  | none => .done () { f with fileExists := true } (w.emit (.saveFile f.id))

/-- Modelled from the spec: `deleteFile(file)` removes the content of the file from disk, or
throws. -/
def deleteFile (env : Services) (f : TskFile) (w : World) : Step Unit :=
  match env.deleteFile f w with
  | some e => .threw e f (w.emit (.deleteFile f.id))
  | none => .done () { f with fileExists := false } (w.emit (.deleteFile f.id))

/-- The call `m_modules[i]->run(file)`: the effect of the module on the handle and on the
persisted status, and its return value or exception. -/
def TskModule.invoke (m : TskModule) (f : TskFile) (w : World) : Step Status :=
  let eff := m.run f w
  let f1 : TskFile := { f with status := eff.newStatus.getD f.status, fileExists := eff.fileExists }
  let w1 : World := w.emit (.moduleRun m.moduleId f eff.result.toOption)
  let w2 : World :=
    match eff.newStatus with
    | some s => w1.updateFileStatus f.id s
    | none => w1
  match eff.result with
  | .error e => .threw e f1 w2
  | .ok status => .done status f1 w2

/-- The call `imgDB.setModuleStatus(file->id(), m_modules[i]->getModuleId(), (int)status)`. -/
def setModuleStatus (env : Services) (m : TskModule) (status : Status) (f : TskFile) (w : World) :
    Step Unit :=
  match env.setModuleStatus f.id m.moduleId status w with
  | some e => .threw e f (w.emit (.setModuleStatus f.id m.moduleId status))
  | none =>
    .done () f ((w.emit (.setModuleStatus f.id m.moduleId status)).setModuleStatus f.id m.moduleId status)

/-- The loop `for (int i = 0; i < m_modules.size(); i++)` of `run`, over the modules still to
run, with the flag `bModuleFailed`; it ends with the final value of the flag. -/
def moduleLoop (env : Services) : List TskModule → Bool → TskFile → World → Step Bool
  | [], bModuleFailed, f, w => .done bModuleFailed f w
  | m :: rest, bModuleFailed, f, w =>
    (m.invoke f w).andThen fun status f1 w1 =>
    (setModuleStatus env m status f1 w1).andThen fun _ f2 w2 =>
    let bModuleFailed1 := if status = Status.FAIL then true else bModuleFailed
    if status = Status.STOP then .done bModuleFailed1 f2 w2
    else moduleLoop env rest bModuleFailed1 f2 w2

/-- The call `excludeFile(file)`. -/
def excludeFile (env : Services) (f : TskFile) (w : World) : Step Bool :=
  match env.excludeFile f w with
  | .error e => .threw e f (w.emit (.excludeFile f.id))
  | .ok b => .done b f (w.emit (.excludeFile f.id))

/-- Lines 78 to 81 of `run`: with an executable module in the pipeline the file must be on
disk. -/
def materialize (p : TskFileAnalysisPipeline) (env : Services) (f : TskFile) (w : World) :
    Step Unit :=
  if p.m_hasExeModule && !f.fileExists then saveFile env f w else .done () f w

/-- Lines 105 to 110 of `run`: the file is deleted if it exists, unless it is carved or
derived. -/
def cleanup (env : Services) (f : TskFile) (w : World) : Step Unit :=
  if f.typeId ≠ FILE_TYPES.CARVED ∧ f.typeId ≠ FILE_TYPES.DERIVED ∧ f.fileExists = true then
    deleteFile env f w
  else .done () f w

/-- Lines 114 to 118 of `run`: the status is updated only if the modules have not set it. -/
def finalStatus (env : Services) (bModuleFailed : Bool) (f : TskFile) (w : World) : Step Unit :=
  if f.status = FILE_STATUS.ANALYSIS_IN_PROGRESS then
    if bModuleFailed then setStatus env FILE_STATUS.ANALYSIS_FAILED f w
    else setStatus env FILE_STATUS.ANALYSIS_COMPLETE f w
  else .done () f w

/-- The body of the `try` block of `run(TskFile* file)`. -/
def tryBlock (p : TskFileAnalysisPipeline) (env : Services) (f : TskFile) (w : World) : Step Unit :=
  (excludeFile env f w).andThen fun excluded f w =>
  if excluded then setStatus env FILE_STATUS.ANALYSIS_SKIPPED f w
  else if f.status ≠ FILE_STATUS.READY_FOR_ANALYSIS then .done () f w
  else
    (setStatus env FILE_STATUS.ANALYSIS_IN_PROGRESS f w).andThen fun _ f w =>
    (materialize p env f w).andThen fun _ f w =>
    (moduleLoop env p.m_modules false f w).andThen fun bModuleFailed f w =>
    (cleanup env f w).andThen fun _ f w =>
    finalStatus env bModuleFailed f w

/-- The handler `catch (std::exception& ex)` of `run`: it logs the error, commits
`ANALYSIS_FAILED` for the file and throws the exception again. -/
def catchBlock (e : Fault) (f : TskFile) (w : World) : Outcome :=
  { file := some f
    world := ((w.emit (.logError f.id e)).emit
      (.updateFileStatus f.id FILE_STATUS.ANALYSIS_FAILED)).updateFileStatus f.id
        FILE_STATUS.ANALYSIS_FAILED
    raised := some e }

/-- The member `TskFileAnalysisPipeline::run(TskFile* file)`; a null pointer is `none`. The
lookup of the image database before the `try` block is taken to succeed. -/
def TskFileAnalysisPipeline.run (p : TskFileAnalysisPipeline) (env : Services)
    (file : Option TskFile) (w : World) : Outcome :=
  if p.m_modules.length = 0 then { file := file, world := w, raised := none }
  else
    match file with
    | none =>
      { file := none, world := w.emit .logNullPointer, raised := some .TskNullPointerException }
    | some f =>
      match tryBlock p env f w with
      | .done _ f1 w1 => { file := some f1, world := w1, raised := none }
      | .threw e f1 w1 => catchBlock e f1 w1

/-- The member `TskFileAnalysisPipeline::run(const uint64_t fileId)`. -/
def TskFileAnalysisPipeline.runId (p : TskFileAnalysisPipeline) (env : Services)
    (fileId : Nat) (w : World) : Outcome :=
  if p.m_modules.length = 0 then { file := none, world := w, raised := none }
  else
    match env.getFile fileId w with
    | .error e => { file := none, world := w.emit (.getFile fileId), raised := some e }
    | .ok file => p.run env file (w.emit (.getFile fileId))

/-- The module call of an event: the identifier of the module and what it returned. -/
def Event.moduleCall : Event → Option (Nat × Option Status)
  | .moduleRun moduleId _ returned => some (moduleId, returned)
  | _ => none

/-- The module calls of a log, in order. -/
def moduleCalls (L : List Event) : List (Nat × Option Status) :=
  L.filterMap Event.moduleCall

/-- The module record that `run` writes for a module call that returned. -/
def recordOf (fileId : Nat) (c : Nat × Option Status) : Option (Nat × Nat × Status) :=
  c.2.map fun s => (fileId, c.1, s)

/-- The events that a call of `run` added to the log of the state `w` it started in. -/
def Outcome.newEvents (o : Outcome) (w : World) : List Event :=
  o.world.log.drop w.log.length

/-- The module records that a call of `run` added to the table of the state `w`. -/
def Outcome.newRecords (o : Outcome) (w : World) : List (Nat × Nat × Status) :=
  o.world.moduleStatus.drop w.moduleStatus.length

/-- The status of the handle after `run`. -/
def Outcome.status (o : Outcome) : Option FILE_STATUS :=
  o.file.map TskFile.status

/-- None of the calls to the file manager and to the database throws. -/
def Services.Reliable (env : Services) : Prop :=
  (∀ f s w, env.setStatus f s w = none) ∧ (∀ f w, env.saveFile f w = none) ∧
  (∀ f w, env.deleteFile f w = none) ∧ (∀ i j s w, env.setModuleStatus i j s w = none)

/-- The module returns `OK` or `FAIL` whatever it is given. -/
def TskModule.Continues (m : TskModule) : Prop :=
  ∀ g v, (m.run g v).result = .ok Status.OK ∨ (m.run g v).result = .ok Status.FAIL

/-- The module never sets the status of the file. -/
def TskModule.KeepsStatus (m : TskModule) : Prop :=
  ∀ g v, (m.run g v).newStatus = none

/-- The handle at the start of the module loop of a ready file that is not excluded: the
status is in progress and the file is on disk if the pipeline needs it there. -/
def entryFile (p : TskFileAnalysisPipeline) (f : TskFile) : TskFile :=
  { f with status := FILE_STATUS.ANALYSIS_IN_PROGRESS, fileExists := f.fileExists || p.m_hasExeModule }

/-- The calls of `run` before the module loop of a ready file that is not excluded, when no
call throws. -/
def entryEvents (p : TskFileAnalysisPipeline) (f : TskFile) : List Event :=
  [Event.excludeFile f.id, Event.setStatus f.id FILE_STATUS.ANALYSIS_IN_PROGRESS]
    ++ if p.m_hasExeModule && !f.fileExists then [Event.saveFile f.id] else []

/-- The state at the start of the module loop of a ready file that is not excluded, when no
call has thrown. -/
def entryWorld (p : TskFileAnalysisPipeline) (f : TskFile) (w : World) : World :=
  { fileStatus := Function.update w.fileStatus f.id FILE_STATUS.ANALYSIS_IN_PROGRESS
    moduleStatus := w.moduleStatus
    log := w.log ++ entryEvents p f }

/-- The status that lines 114 to 118 of `run` leave, when the status write does not throw. -/
def finalStatusOf (bModuleFailed : Bool) (f : TskFile) : FILE_STATUS :=
  if f.status = FILE_STATUS.ANALYSIS_IN_PROGRESS then
    if bModuleFailed then FILE_STATUS.ANALYSIS_FAILED else FILE_STATUS.ANALYSIS_COMPLETE
  else f.status

/-- The handle after lines 105 to 118 of `run`, when no call throws. -/
def exitFile (bModuleFailed : Bool) (f : TskFile) : TskFile :=
  { f with
    status := finalStatusOf bModuleFailed f
    fileExists := f.fileExists && (f.typeId = FILE_TYPES.CARVED || f.typeId = FILE_TYPES.DERIVED) }

/-- The calls of lines 105 to 118 of `run`, when no call throws. -/
def exitEvents (bModuleFailed : Bool) (f : TskFile) : List Event :=
  (if f.typeId ≠ FILE_TYPES.CARVED ∧ f.typeId ≠ FILE_TYPES.DERIVED ∧ f.fileExists = true
    then [Event.deleteFile f.id] else []) ++
  (if f.status = FILE_STATUS.ANALYSIS_IN_PROGRESS
    then [Event.setStatus f.id (finalStatusOf bModuleFailed f)] else [])

/-- The state after lines 105 to 118 of `run`, when no call throws. -/
def exitWorld (bModuleFailed : Bool) (f : TskFile) (w : World) : World :=
  { fileStatus :=
      if f.status = FILE_STATUS.ANALYSIS_IN_PROGRESS
        then Function.update w.fileStatus f.id (finalStatusOf bModuleFailed f) else w.fileStatus
    moduleStatus := w.moduleStatus
    log := w.log ++ exitEvents bModuleFailed f }

/-- A module that returns `s` and touches nothing. -/
def constModule (moduleId : Nat) (s : Status) : TskModule :=
  { moduleId := moduleId
    run := fun f _ => { newStatus := none, fileExists := f.fileExists, result := .ok s } }

/-- Services that never throw; no file is excluded. -/
def quietServices : Services :=
  { getFile := fun i _ => .ok (some ⟨i, .FS, .READY_FOR_ANALYSIS, false⟩)
    excludeFile := fun _ _ => .ok false
    setStatus := fun _ _ _ => none
    saveFile := fun _ _ => none
    deleteFile := fun _ _ => none
    setModuleStatus := fun _ _ _ _ => none }

/-- A database in which every file is ready for analysis and nothing is recorded. -/
def freshWorld : World :=
  { fileStatus := fun _ => .READY_FOR_ANALYSIS, moduleStatus := [], log := [] }

/-- A ready file of the file system that is not on disk. -/
def readyFile : TskFile :=
  { id := 7, typeId := .FS, status := .READY_FOR_ANALYSIS, fileExists := false }

/-- The pipeline `[A(Ok), B(Fail), C(Ok)]`. -/
def pipelineOkFailOk : TskFileAnalysisPipeline :=
  { m_modules := [constModule 1 .OK, constModule 2 .FAIL, constModule 3 .OK], m_hasExeModule := true }

/-- The pipeline `[A(Ok), B(Stop), C(Ok)]`. -/
def pipelineOkStopOk : TskFileAnalysisPipeline :=
  { m_modules := [constModule 1 .OK, constModule 2 .STOP, constModule 3 .OK], m_hasExeModule := true }

/-- Services that never throw and exclude every file. -/
def excludingServices : Services :=
  { quietServices with excludeFile := fun _ _ => .ok true }

/-- A file of the file system whose analysis is complete. -/
def completeFile : TskFile :=
  { id := 7, typeId := .FS, status := .ANALYSIS_COMPLETE, fileExists := false }

/-- A database in which the analysis of every file is complete. -/
def completeWorld : World :=
  { fileStatus := fun _ => .ANALYSIS_COMPLETE, moduleStatus := [], log := [] }

/-- A module that sets the status of the file to `ANALYSIS_SKIPPED` and returns `FAIL`. -/
def disposingModule (moduleId : Nat) : TskModule :=
  { moduleId := moduleId
    run := fun f _ =>
      { newStatus := some .ANALYSIS_SKIPPED, fileExists := f.fileExists, result := .ok .FAIL } }

/-- The pipeline of one module that sets the status itself and fails. -/
def pipelineDisposing : TskFileAnalysisPipeline :=
  { m_modules := [disposingModule 1], m_hasExeModule := false }

/-- A pipeline without modules. -/
def pipelineEmpty : TskFileAnalysisPipeline :=
  { m_modules := [], m_hasExeModule := false }

/-- The module calls of a log `L` and the module records `R` follow the module list `ms`:
the calls are those of a first part of `ms`, in order; every call but the last returned, and
not `STOP`; and the records are, in order, the records of the calls that returned, the last
of which may be missing. -/
def Tracks (ms : List TskModule) (fileId : Nat) (L : List Event)
    (R : List (Nat × Nat × Status)) : Prop :=
  (moduleCalls L).map Prod.fst = (ms.take (moduleCalls L).length).map TskModule.moduleId ∧
  (∀ c ∈ (moduleCalls L).dropLast, c.2 ≠ none ∧ c.2 ≠ some Status.STOP) ∧
  ∃ t, (moduleCalls L).filterMap (recordOf fileId) = R ++ t

/-- The state `(g, v)` comes from `(f, w)` by calls that are not module calls and that write
no module record. -/
def Quiet (f : TskFile) (w : World) (g : TskFile) (v : World) : Prop :=
  g.id = f.id ∧ g.typeId = f.typeId ∧ v.moduleStatus = w.moduleStatus ∧
  ∃ L, v.log = w.log ++ L ∧ moduleCalls L = []

/-- The state `(g, v)` comes from `(f, w)` by calls and record writes that follow the module
list `ms`. -/
def Follows (ms : List TskModule) (f : TskFile) (w : World) (g : TskFile) (v : World) : Prop :=
  g.id = f.id ∧ g.typeId = f.typeId ∧
  ∃ L R, v.log = w.log ++ L ∧ v.moduleStatus = w.moduleStatus ++ R ∧ Tracks ms f.id L R

/-- The calls of the handler of `run`, for the exception that the `try` block threw. -/
def catchEvents (fileId : Nat) : Option Fault → List Event
  | none => []
  | some e => [Event.logError fileId e, Event.updateFileStatus fileId FILE_STATUS.ANALYSIS_FAILED]

/-- A carved file that is on disk and ready for analysis. -/
def carvedFile : TskFile :=
  { id := 7, typeId := .CARVED, status := .READY_FOR_ANALYSIS, fileExists := true }

/-- A module that throws and touches nothing. -/
def throwingModule (moduleId : Nat) (what : Nat) : TskModule :=
  { moduleId := moduleId
    run := fun f _ =>
      { newStatus := none, fileExists := f.fileExists, result := .error (.exception what) } }

/-- The pipeline `[A(Ok), B(throws), C(Ok)]`. -/
def pipelineOkThrowOk : TskFileAnalysisPipeline :=
  { m_modules := [constModule 1 .OK, throwingModule 2 42, constModule 3 .OK], m_hasExeModule := true }

/-- Services whose exclusion check throws. -/
def throwingExclusion : Services :=
  { quietServices with excludeFile := fun _ _ => .error (.exception 13) }

/-- The handle that a module call was given. -/
def Event.seenFile : Event → Option TskFile
  | .moduleRun _ seen _ => some seen
  | _ => none

/-- The handles that the module calls of a log were given, in order. -/
def seenFiles (L : List Event) : List TskFile :=
  L.filterMap Event.seenFile

/-- Services that never throw and whose file lookup returns a null handle. -/
def nullLookup : Services :=
  { quietServices with getFile := fun _ _ => .ok none }

/-- The second of two calls of `run` in succession: `run` on the handle and in the state that
a first call of `run` on the handle `f` in the state `w` left. -/
def secondRun (p : TskFileAnalysisPipeline) (env : Services) (f : TskFile) (w : World) : Outcome :=
  p.run env (p.run env (some f) w).file (p.run env (some f) w).world

/-- A ready file of the file system that is on disk. -/
def storedFile : TskFile :=
  { id := 7, typeId := .FS, status := .READY_FOR_ANALYSIS, fileExists := true }

/-- What `run` leaves when it throws `e` for the file `fileId`: the exception `e`, the
persisted status `ANALYSIS_FAILED`, the calls `calls` followed by the two calls of the
handler and by nothing else, and the new module records `records`. -/
def FaultOutcome (o : Outcome) (w : World) (fileId : Nat) (e : Fault) (calls : List Event)
    (records : List (Nat × Nat × Status)) : Prop :=
  o.raised = some e ∧
  o.world.fileStatus fileId = FILE_STATUS.ANALYSIS_FAILED ∧
  o.newEvents w = calls ++ [Event.logError fileId e,
    Event.updateFileStatus fileId FILE_STATUS.ANALYSIS_FAILED] ∧
  o.newRecords w = records

/-- The state in which `saveFile` is called for the file `f`, when it is called: after the
exclusion check and the status write of `ANALYSIS_IN_PROGRESS`. -/
def saveWorld (f : TskFile) (w : World) : World :=
  ((w.emit (Event.excludeFile f.id)).emit
    (Event.setStatus f.id FILE_STATUS.ANALYSIS_IN_PROGRESS)).updateFileStatus f.id
      FILE_STATUS.ANALYSIS_IN_PROGRESS

/-- The run of `f` from `w` reaches the module loop: the file is not excluded and is ready,
and neither the status write of `ANALYSIS_IN_PROGRESS` nor `saveFile`, if it is called,
throws. -/
def Enters (p : TskFileAnalysisPipeline) (env : Services) (f : TskFile) (w : World) : Prop :=
  env.excludeFile f w = .ok false ∧ f.status = FILE_STATUS.READY_FOR_ANALYSIS ∧
  env.setStatus f FILE_STATUS.ANALYSIS_IN_PROGRESS (w.emit (Event.excludeFile f.id)) = none ∧
  (p.m_hasExeModule = true → f.fileExists = false →
    env.saveFile { f with status := FILE_STATUS.ANALYSIS_IN_PROGRESS } (saveWorld f w) = none)

/-- The run of `f` from `w` reaches the call of the module `m` in the state `(g, v)`: it
reaches the loop, the module list is `pre ++ m :: post`, and the loop over the modules of
`pre` from the entry state ends normally in `(g, v)`, no module having returned `STOP`. -/
def ReachesModule (p : TskFileAnalysisPipeline) (env : Services) (f : TskFile) (w : World)
    (pre : List TskModule) (m : TskModule) (post : List TskModule) (g : TskFile) (v : World) :
    Prop :=
  Enters p env f w ∧ p.m_modules = pre ++ m :: post ∧
  (∃ b, moduleLoop env pre false (entryFile p f) (entryWorld p f w) = .done b g v) ∧
  ∀ c ∈ moduleCalls (v.log.drop (entryWorld p f w).log.length), c.2 ≠ some Status.STOP

/-- Services that never throw but for the module record write, which always throws. -/
def throwingRecords : Services :=
  { quietServices with setModuleStatus := fun _ _ _ _ => some (.exception 5) }

@[simp]
theorem andThen_done {α β : Type} (a : α) (f : TskFile) (w : World)
    (k : α → TskFile → World → Step β) : (Step.done a f w).andThen k = k a f w := rfl

@[simp]
theorem andThen_threw {α β : Type} (e : Fault) (f : TskFile) (w : World)
    (k : α → TskFile → World → Step β) : (Step.threw e f w).andThen k = Step.threw e f w := rfl

@[simp]
theorem moduleCalls_append (L M : List Event) :
    moduleCalls (L ++ M) = moduleCalls L ++ moduleCalls M := by
  simp [moduleCalls]

@[simp]
theorem moduleCalls_nil : moduleCalls [] = [] := rfl

@[simp]
theorem moduleCalls_cons (ev : Event) (L : List Event) :
    moduleCalls (ev :: L) = ev.moduleCall.toList ++ moduleCalls L := by
  cases h : ev.moduleCall <;> simp [moduleCalls, List.filterMap_cons, h]

theorem invoke_quiet (m : TskModule) (f : TskFile) (w : World) (s : Status)
    (hs : (m.run f w).newStatus = none) (hr : (m.run f w).result = .ok s) :
    m.invoke f w = .done s { f with fileExists := (m.run f w).fileExists }
      (w.emit (.moduleRun m.moduleId f (some s))) := by
  simp [TskModule.invoke, hs, hr, Except.toOption]

theorem setModuleStatus_ok (env : Services) (henv : env.Reliable) (m : TskModule) (s : Status)
    (f : TskFile) (w : World) :
    setModuleStatus env m s f w = .done () f
      ((w.emit (.setModuleStatus f.id m.moduleId s)).setModuleStatus f.id m.moduleId s) := by
  simp [setModuleStatus, henv.2.2.2]

/-- Running a list of modules that all return `OK` or `FAIL` and keep the status: the loop
reaches the modules after them, having called and recorded each of them once, in order. -/
theorem moduleLoop_continues (env : Services) (henv : env.Reliable) (rest : List TskModule) :
    ∀ (pre : List TskModule) (b : Bool) (f : TskFile) (w : World),
      (∀ m ∈ pre, m.Continues ∧ m.KeepsStatus) →
      ∃ (f1 : TskFile) (w1 : World) (L : List Event),
        moduleLoop env (pre ++ rest) b f w
          = moduleLoop env rest (b || (moduleCalls L).any fun c => c.2 == some Status.FAIL) f1 w1 ∧
        f1.id = f.id ∧ f1.typeId = f.typeId ∧ f1.status = f.status ∧
        w1.fileStatus = w.fileStatus ∧ w1.log = w.log ++ L ∧
        w1.moduleStatus = w.moduleStatus ++ (moduleCalls L).filterMap (recordOf f.id) ∧
        (moduleCalls L).map Prod.fst = pre.map TskModule.moduleId ∧
        (∀ c ∈ moduleCalls L, c.2 = some Status.OK ∨ c.2 = some Status.FAIL) ∧
        (∀ ev ∈ L, (∃ i g r, ev = Event.moduleRun i g r) ∨ ∃ i j s, ev = Event.setModuleStatus i j s) := by
  intro pre
  induction pre with
  | nil =>
    intro b f w _
    exact ⟨f, w, [], by simp [moduleCalls]⟩
  | cons m pre ih =>
    intro b f w h
    have hm := h m (List.mem_cons_self _ _)
    have hrest : ∀ m ∈ pre, m.Continues ∧ m.KeepsStatus :=
      fun x hx => h x (List.mem_cons_of_mem _ hx)
    rcases hm.1 f w with hr | hr
    · obtain ⟨f1, w1, L, hrun, hid, hty, hst, hfs, hlog, hrec, hcalls, hret, hev⟩ :=
        ih b { f with fileExists := (m.run f w).fileExists }
          ((w.emit (.moduleRun m.moduleId f (some Status.OK))).emit
            (.setModuleStatus f.id m.moduleId Status.OK) |>.setModuleStatus f.id m.moduleId Status.OK)
          hrest
      refine ⟨f1, w1, [.moduleRun m.moduleId f (some Status.OK),
        .setModuleStatus f.id m.moduleId Status.OK] ++ L, ?_, hid, hty, hst, ?_, ?_, ?_, ?_, ?_, ?_⟩
      · simp [moduleLoop, invoke_quiet m f w _ (hm.2 f w) hr, setModuleStatus_ok env henv]
        simpa [Event.moduleCall] using hrun
      · simpa [World.emit, World.setModuleStatus] using hfs
      · simpa [World.emit, World.setModuleStatus] using hlog
      · simpa [World.emit, World.setModuleStatus, Event.moduleCall, recordOf] using hrec
      · simpa [Event.moduleCall] using hcalls
      · intro c hc
        simp [Event.moduleCall] at hc
        rcases hc with hc | hc
        · simp [hc]
        · exact hret c hc
      · intro ev hev1
        simp at hev1
        rcases hev1 with h1 | h1 | h1
        · exact Or.inl ⟨_, _, _, h1⟩
        · exact Or.inr ⟨_, _, _, h1⟩
        · exact hev ev h1
    · obtain ⟨f1, w1, L, hrun, hid, hty, hst, hfs, hlog, hrec, hcalls, hret, hev⟩ :=
        ih true { f with fileExists := (m.run f w).fileExists }
          ((w.emit (.moduleRun m.moduleId f (some Status.FAIL))).emit
            (.setModuleStatus f.id m.moduleId Status.FAIL) |>.setModuleStatus f.id m.moduleId Status.FAIL)
          hrest
      refine ⟨f1, w1, [.moduleRun m.moduleId f (some Status.FAIL),
        .setModuleStatus f.id m.moduleId Status.FAIL] ++ L, ?_, hid, hty, hst, ?_, ?_, ?_, ?_, ?_, ?_⟩
      · simp [moduleLoop, invoke_quiet m f w _ (hm.2 f w) hr, setModuleStatus_ok env henv]
        simpa [Event.moduleCall] using hrun
      · simpa [World.emit, World.setModuleStatus] using hfs
      · simpa [World.emit, World.setModuleStatus] using hlog
      · simpa [World.emit, World.setModuleStatus, Event.moduleCall, recordOf] using hrec
      · simpa [Event.moduleCall] using hcalls
      · intro c hc
        simp [Event.moduleCall] at hc
        rcases hc with hc | hc
        · simp [hc]
        · exact hret c hc
      · intro ev hev1
        simp at hev1
        rcases hev1 with h1 | h1 | h1
        · exact Or.inl ⟨_, _, _, h1⟩
        · exact Or.inr ⟨_, _, _, h1⟩
        · exact hev ev h1

theorem tryBlock_entry (p : TskFileAnalysisPipeline) (env : Services) (f : TskFile) (w : World)
    (hready : f.status = FILE_STATUS.READY_FOR_ANALYSIS)
    (hexcl : env.excludeFile f w = .ok false) (henv : env.Reliable) :
    tryBlock p env f w =
      (moduleLoop env p.m_modules false (entryFile p f) (entryWorld p f w)).andThen
        fun b f w => (cleanup env f w).andThen fun _ f w => finalStatus env b f w := by
  cases hx : f.fileExists <;> cases hp : p.m_hasExeModule <;>
    simp [tryBlock, excludeFile, hexcl, hready, setStatus, henv.1, materialize, saveFile, henv.2.1,
      entryFile, entryWorld, entryEvents, World.emit, World.updateFileStatus, hx, hp]

theorem exit_ok (env : Services) (henv : env.Reliable) (b : Bool) (f : TskFile) (w : World) :
    ((cleanup env f w).andThen fun _ f w => finalStatus env b f w)
      = .done () (exitFile b f) (exitWorld b f w) := by
  obtain ⟨i, t, st, x⟩ := f
  cases b <;> cases x <;> cases t <;>
    by_cases h : st = FILE_STATUS.ANALYSIS_IN_PROGRESS <;>
    simp [cleanup, finalStatus, deleteFile, setStatus, henv.1, henv.2.2.1, exitFile, exitWorld,
      exitEvents, finalStatusOf, World.emit, World.updateFileStatus, h]

theorem run_some (p : TskFileAnalysisPipeline) (env : Services) (f : TskFile) (w : World)
    (hne : p.m_modules ≠ []) :
    p.run env (some f) w =
      match tryBlock p env f w with
      | .done _ f1 w1 => { file := some f1, world := w1, raised := none }
      | .threw e f1 w1 => catchBlock e f1 w1 := by
  have hlen : p.m_modules.length ≠ 0 := by simpa using hne
  simp [TskFileAnalysisPipeline.run, hlen]

theorem moduleCalls_exitEvents (b : Bool) (f : TskFile) : moduleCalls (exitEvents b f) = [] := by
  unfold exitEvents
  split <;> split <;> simp [Event.moduleCall]

theorem moduleCalls_entryEvents (p : TskFileAnalysisPipeline) (f : TskFile) :
    moduleCalls (entryEvents p f) = [] := by
  unfold entryEvents
  split <;> simp [Event.moduleCall]

theorem fail_mem_records (i : Nat) (calls : List (Nat × Option Status)) :
    Status.FAIL ∈ ((calls.filterMap (recordOf i)).map fun r => r.2.2)
      ↔ (calls.any fun c => c.2 == some Status.FAIL) = true := by
  induction calls with
  | nil => simp
  | cons c cs ih =>
    obtain ⟨j, r⟩ := c
    cases r with
    | none => simpa [List.filterMap_cons, recordOf] using ih
    | some s =>
      simp only [List.filterMap_cons, recordOf, Option.map_some', List.map_cons, List.mem_cons,
        List.any_cons, Bool.or_eq_true, beq_iff_eq, Option.some.injEq, ih]
      constructor
      · rintro (h | h)
        · exact Or.inl h.symm
        · exact Or.inr h
      · rintro (h | h)
        · exact Or.inl h.symm
        · exact Or.inr h

theorem records_of_returned (i : Nat) (calls : List (Nat × Option Status))
    (h : ∀ c ∈ calls, c.2 ≠ none) :
    ((calls.filterMap (recordOf i)).map fun r => (r.1, r.2.1)) = (calls.map Prod.fst).map fun j => (i, j) := by
  induction calls with
  | nil => simp
  | cons c cs ih =>
    obtain ⟨j, r⟩ := c
    cases r with
    | none => exact absurd rfl (h (j, none) (List.mem_cons_self _ _))
    | some s =>
      have := ih fun c hc => h c (List.mem_cons_of_mem _ hc)
      simpa [List.filterMap_cons, recordOf] using this

theorem run_of_loop_done (p : TskFileAnalysisPipeline) (env : Services) (f : TskFile) (w : World)
    (hne : p.m_modules ≠ [])
    (hready : f.status = FILE_STATUS.READY_FOR_ANALYSIS)
    (hexcl : env.excludeFile f w = .ok false) (henv : env.Reliable)
    (b : Bool) (f1 : TskFile) (w1 : World)
    (hloop : moduleLoop env p.m_modules false (entryFile p f) (entryWorld p f w) = .done b f1 w1) :
    p.run env (some f) w
      = { file := some (exitFile b f1), world := exitWorld b f1 w1, raised := none } := by
  rw [run_some p env f w hne, tryBlock_entry p env f w hready hexcl henv, hloop]
  simp [exit_ok env henv]

/-- C1: for a ready file that is not excluded and a non-empty list of modules that all return
`OK` or `FAIL`, never throw and never set the status, with services that do not throw, `run`
returns normally, calls every module once in list order, adds one record per module in that
order, each with the status the module returned, and leaves the status `ANALYSIS_FAILED` if a
module returned `FAIL` and `ANALYSIS_COMPLETE` otherwise, in the handle and in the database. -/
theorem run_invokes_and_records_every_module (p : TskFileAnalysisPipeline) (env : Services)
    (f : TskFile) (w : World)
    (hne : p.m_modules ≠ [])
    (hready : f.status = FILE_STATUS.READY_FOR_ANALYSIS)
    (hexcl : env.excludeFile f w = .ok false)
    (henv : env.Reliable)
    (hmods : ∀ m ∈ p.m_modules, m.Continues ∧ m.KeepsStatus) :
    (p.run env (some f) w).raised = none ∧
    (moduleCalls ((p.run env (some f) w).newEvents w)).map Prod.fst
      = p.m_modules.map TskModule.moduleId ∧
    (p.run env (some f) w).newRecords w
      = (moduleCalls ((p.run env (some f) w).newEvents w)).filterMap (recordOf f.id) ∧
    ((p.run env (some f) w).newRecords w).map (fun r => (r.1, r.2.1))
      = p.m_modules.map (fun m => (f.id, m.moduleId)) ∧
    (p.run env (some f) w).status
      = some (if Status.FAIL ∈ ((p.run env (some f) w).newRecords w).map (fun r => r.2.2)
          then FILE_STATUS.ANALYSIS_FAILED else FILE_STATUS.ANALYSIS_COMPLETE) ∧
    (p.run env (some f) w).world.fileStatus f.id
      = (if Status.FAIL ∈ ((p.run env (some f) w).newRecords w).map (fun r => r.2.2)
          then FILE_STATUS.ANALYSIS_FAILED else FILE_STATUS.ANALYSIS_COMPLETE) := by
  obtain ⟨f1, w1, L, hrun, hid, hty, hst, hfs, hlog, hrec, hcalls, hret, hev⟩ :=
    moduleLoop_continues env henv [] p.m_modules false (entryFile p f) (entryWorld p f w) hmods
  simp only [List.append_nil] at hrun
  have hrun2 : p.run env (some f) w
      = { file := some (exitFile (false || (moduleCalls L).any fun c => c.2 == some Status.FAIL) f1)
          world := exitWorld (false || (moduleCalls L).any fun c => c.2 == some Status.FAIL) f1 w1
          raised := none } := by
    rw [run_some p env f w hne, tryBlock_entry p env f w hready hexcl henv, hrun]
    simp [moduleLoop, exit_ok env henv]
  have hnew : moduleCalls ((p.run env (some f) w).newEvents w) = moduleCalls L := by
    rw [hrun2]
    simp [Outcome.newEvents, exitWorld, hlog, entryWorld, List.append_assoc,
      moduleCalls_exitEvents, moduleCalls_entryEvents]
  have hrecs : (p.run env (some f) w).newRecords w = (moduleCalls L).filterMap (recordOf f.id) := by
    rw [hrun2]
    simp [Outcome.newRecords, exitWorld, hrec, entryWorld, entryFile]
  have hfail := fail_mem_records f.id (moduleCalls L)
  have hst1 : f1.status = FILE_STATUS.ANALYSIS_IN_PROGRESS := by simp [hst, entryFile]
  have hid1 : f1.id = f.id := by simp [hid, entryFile]
  refine ⟨by rw [hrun2], ?_, ?_, ?_, ?_, ?_⟩
  · rw [hnew, hcalls]
  · rw [hnew, hrecs]
  · rw [hrecs, records_of_returned f.id _ (fun c hc => by rcases hret c hc with h | h <;> simp [h]),
      hcalls, List.map_map]
    rfl
  · rw [hrecs]
    rw [hrun2]
    by_cases hb : ((moduleCalls L).any fun c => c.2 == some Status.FAIL) = true
    · simp [Outcome.status, exitFile, finalStatusOf, hst1, hfail.2 hb, hb]
    · have hb2 : ¬ Status.FAIL ∈ (((moduleCalls L).filterMap (recordOf f.id)).map fun r => r.2.2) :=
        fun h => hb (hfail.1 h)
      simp only [Bool.not_eq_true] at hb
      simp [Outcome.status, exitFile, finalStatusOf, hst1, hb2, hb]
  · rw [hrecs]
    rw [hrun2]
    by_cases hb : ((moduleCalls L).any fun c => c.2 == some Status.FAIL) = true
    · simp [exitWorld, finalStatusOf, hst1, hid1, hfail.2 hb, hb]
    · have hb2 : ¬ Status.FAIL ∈ (((moduleCalls L).filterMap (recordOf f.id)).map fun r => r.2.2) :=
        fun h => hb (hfail.1 h)
      simp only [Bool.not_eq_true] at hb
      simp [exitWorld, finalStatusOf, hst1, hid1, hb2, hb]

/-- Witness for C1: the pipeline `[A(Ok), B(Fail), C(Ok)]` on a ready file gives three
records, in order, and the status `ANALYSIS_FAILED`. -/
theorem run_invokes_and_records_every_module_witness :
    ((pipelineOkFailOk.run quietServices (some readyFile) freshWorld).newRecords freshWorld).map
        (fun r => (r.1, r.2.1)) = [(7, 1), (7, 2), (7, 3)] ∧
    (pipelineOkFailOk.run quietServices (some readyFile) freshWorld).newRecords freshWorld
      = [(7, 1, Status.OK), (7, 2, Status.FAIL), (7, 3, Status.OK)] ∧
    (pipelineOkFailOk.run quietServices (some readyFile) freshWorld).status
      = some FILE_STATUS.ANALYSIS_FAILED := by
  have h := run_invokes_and_records_every_module pipelineOkFailOk quietServices readyFile
    freshWorld (by simp [pipelineOkFailOk]) rfl rfl
    (by simp [Services.Reliable, quietServices])
    (by simp [pipelineOkFailOk, constModule, TskModule.Continues, TskModule.KeepsStatus])
  exact ⟨h.2.2.2.1, h.2.2.1.trans (by decide), h.2.2.2.2.1.trans (by decide)⟩

theorem moduleLoop_stop (env : Services) (henv : env.Reliable) (m : TskModule)
    (rest : List TskModule) (b : Bool) (f : TskFile) (w : World)
    (hs : (m.run f w).newStatus = none) (hr : (m.run f w).result = .ok Status.STOP) :
    moduleLoop env (m :: rest) b f w = .done b { f with fileExists := (m.run f w).fileExists }
      (((w.emit (.moduleRun m.moduleId f (some Status.STOP))).emit
        (.setModuleStatus f.id m.moduleId Status.STOP)).setModuleStatus f.id m.moduleId Status.STOP) := by
  simp [moduleLoop, invoke_quiet m f w _ hs hr, setModuleStatus_ok env henv]

/-- C2: for a ready file that is not excluded and a module list `pre ++ stopper :: post` in
which the modules of `pre` return `OK` or `FAIL`, `stopper` returns `STOP`, and none of
them throws or sets the status, with services that do not throw, `run` returns normally, calls
and records exactly the modules of `pre` and then `stopper`, in order, the last record being
`STOP`, calls and records no module of `post`, and leaves the status `ANALYSIS_FAILED` if a
module of `pre` returned `FAIL` and `ANALYSIS_COMPLETE` otherwise. -/
theorem run_stops_at_first_stop (p : TskFileAnalysisPipeline) (env : Services)
    (f : TskFile) (w : World) (pre post : List TskModule) (stopper : TskModule)
    (hlist : p.m_modules = pre ++ stopper :: post)
    (hready : f.status = FILE_STATUS.READY_FOR_ANALYSIS)
    (hexcl : env.excludeFile f w = .ok false)
    (henv : env.Reliable)
    (hpre : ∀ m ∈ pre, m.Continues ∧ m.KeepsStatus)
    (hstop : ∀ g v, (stopper.run g v).result = .ok Status.STOP)
    (hkeep : stopper.KeepsStatus) :
    (p.run env (some f) w).raised = none ∧
    (moduleCalls ((p.run env (some f) w).newEvents w)).map Prod.fst
      = (pre ++ [stopper]).map TskModule.moduleId ∧
    (p.run env (some f) w).newRecords w
      = (moduleCalls ((p.run env (some f) w).newEvents w)).filterMap (recordOf f.id) ∧
    ((p.run env (some f) w).newRecords w).map (fun r => (r.1, r.2.1))
      = (pre ++ [stopper]).map (fun m => (f.id, m.moduleId)) ∧
    (∃ outcomes, (∀ s ∈ outcomes, s = Status.OK ∨ s = Status.FAIL) ∧
      ((p.run env (some f) w).newRecords w).map (fun r => r.2.2) = outcomes ++ [Status.STOP]) ∧
    (p.run env (some f) w).status
      = some (if Status.FAIL ∈ ((p.run env (some f) w).newRecords w).map (fun r => r.2.2)
          then FILE_STATUS.ANALYSIS_FAILED else FILE_STATUS.ANALYSIS_COMPLETE) ∧
    (p.run env (some f) w).world.fileStatus f.id
      = (if Status.FAIL ∈ ((p.run env (some f) w).newRecords w).map (fun r => r.2.2)
          then FILE_STATUS.ANALYSIS_FAILED else FILE_STATUS.ANALYSIS_COMPLETE) := by
  obtain ⟨f1, w1, L, hrun, hid, hty, hst, hfs, hlog, hrec, hcalls, hret, hev⟩ :=
    moduleLoop_continues env henv (stopper :: post) pre false (entryFile p f) (entryWorld p f w) hpre
  have hne : p.m_modules ≠ [] := by simp [hlist]
  rw [moduleLoop_stop env henv stopper post _ f1 w1 (hkeep f1 w1) (hstop f1 w1), ← hlist] at hrun
  have hrun2 := run_of_loop_done p env f w hne hready hexcl henv _ _ _ hrun
  have hnew : moduleCalls ((p.run env (some f) w).newEvents w)
      = moduleCalls L ++ [(stopper.moduleId, some Status.STOP)] := by
    rw [hrun2]
    simp [Outcome.newEvents, exitWorld, hlog, entryWorld, List.append_assoc, World.emit,
      World.setModuleStatus, moduleCalls_exitEvents, moduleCalls_entryEvents, Event.moduleCall]
  have hst1 : f1.status = FILE_STATUS.ANALYSIS_IN_PROGRESS := by simp [hst, entryFile]
  have hid1 : f1.id = f.id := by simp [hid, entryFile]
  have hrecs : (p.run env (some f) w).newRecords w
      = (moduleCalls L).filterMap (recordOf f.id) ++ [(f.id, stopper.moduleId, Status.STOP)] := by
    rw [hrun2]
    simp [Outcome.newRecords, exitWorld, hrec, entryWorld, entryFile, World.emit,
      World.setModuleStatus, hid1]
  have hfail := fail_mem_records f.id (moduleCalls L)
  have hsome : ∀ c ∈ moduleCalls L, c.2 ≠ none := fun c hc => by
    rcases hret c hc with h | h <;> simp [h]
  have hfail2 : Status.FAIL ∈ ((p.run env (some f) w).newRecords w).map (fun r => r.2.2)
      ↔ ((moduleCalls L).any fun c => c.2 == some Status.FAIL) = true := by
    rw [hrecs, ← hfail]
    simp
  refine ⟨by rw [hrun2], ?_, ?_, ?_, ?_, ?_, ?_⟩
  · rw [hnew]
    simp [hcalls]
  · rw [hnew, hrecs]
    simp [List.filterMap_append, recordOf]
  · rw [hrecs, List.map_append, records_of_returned f.id _ hsome, hcalls, List.map_map]
    simp
  · refine ⟨((moduleCalls L).filterMap (recordOf f.id)).map (fun r => r.2.2), ?_, by rw [hrecs]; simp⟩
    intro s hs
    simp only [List.mem_map, List.mem_filterMap, recordOf] at hs
    obtain ⟨r, ⟨c, hc, hcr⟩, hrs⟩ := hs
    rcases hret c hc with h | h <;> simp [h] at hcr <;> simp [← hcr] at hrs <;> simp [← hrs]
  · by_cases hb : ((moduleCalls L).any fun c => c.2 == some Status.FAIL) = true
    · rw [if_pos (hfail2.2 hb), hrun2]
      simp [Outcome.status, exitFile, finalStatusOf, hst1, hb]
    · rw [if_neg (fun h => hb (hfail2.1 h)), hrun2]
      simp only [Bool.not_eq_true] at hb
      simp [Outcome.status, exitFile, finalStatusOf, hst1, hb]
  · by_cases hb : ((moduleCalls L).any fun c => c.2 == some Status.FAIL) = true
    · rw [if_pos (hfail2.2 hb), hrun2]
      simp [exitWorld, finalStatusOf, hst1, hid1, hb]
    · rw [if_neg (fun h => hb (hfail2.1 h)), hrun2]
      simp only [Bool.not_eq_true] at hb
      simp [exitWorld, finalStatusOf, hst1, hid1, hb]

/-- Witness for C2: the pipeline `[A(Ok), B(Stop), C(Ok)]` on a ready file gives records for
`A` and `B` only, calls of `A` and `B` only, and the status `ANALYSIS_COMPLETE`. -/
theorem run_stops_at_first_stop_witness :
    (pipelineOkStopOk.run quietServices (some readyFile) freshWorld).newRecords freshWorld
      = [(7, 1, Status.OK), (7, 2, Status.STOP)] ∧
    (moduleCalls ((pipelineOkStopOk.run quietServices (some readyFile) freshWorld).newEvents
      freshWorld)).map Prod.fst = [1, 2] ∧
    (pipelineOkStopOk.run quietServices (some readyFile) freshWorld).status
      = some FILE_STATUS.ANALYSIS_COMPLETE := by
  have h := run_stops_at_first_stop pipelineOkStopOk quietServices readyFile freshWorld
    [constModule 1 .OK] [constModule 3 .OK] (constModule 2 .STOP) rfl rfl rfl
    (by simp [Services.Reliable, quietServices])
    (by simp [constModule, TskModule.Continues, TskModule.KeepsStatus])
    (by simp [constModule]) (by simp [constModule, TskModule.KeepsStatus])
  exact ⟨h.2.2.1.trans (by decide), h.2.1, h.2.2.2.2.2.1.trans (by decide)⟩

/-- C3, as stated, fails: a file whose analysis is complete and that matches the exclusion
policy has its status set to `ANALYSIS_SKIPPED`, in the handle and in the database. -/
theorem run_changes_status_of_excluded_complete_file :
    pipelineOkFailOk.m_modules ≠ [] ∧
    completeFile.status = FILE_STATUS.ANALYSIS_COMPLETE ∧
    completeWorld.fileStatus completeFile.id = FILE_STATUS.ANALYSIS_COMPLETE ∧
    (pipelineOkFailOk.run excludingServices (some completeFile) completeWorld).status
      = some FILE_STATUS.ANALYSIS_SKIPPED ∧
    (pipelineOkFailOk.run excludingServices (some completeFile) completeWorld).world.fileStatus
      completeFile.id = FILE_STATUS.ANALYSIS_SKIPPED := by
  refine ⟨by simp [pipelineOkFailOk], ?_⟩
  decide

/-- C3, amended: for a handle whose status is `ANALYSIS_SKIPPED`, `ANALYSIS_COMPLETE`,
`ANALYSIS_FAILED` or `ANALYSIS_IN_PROGRESS` and that the exclusion policy does not match,
`run` on a non-empty module list returns normally and leaves the handle, the persisted
statuses and the module records unchanged; its only call is the exclusion check. -/
theorem run_skips_file_not_ready (p : TskFileAnalysisPipeline) (env : Services)
    (f : TskFile) (w : World)
    (hne : p.m_modules ≠ [])
    (hstatus : f.status = FILE_STATUS.ANALYSIS_SKIPPED ∨ f.status = FILE_STATUS.ANALYSIS_COMPLETE ∨
      f.status = FILE_STATUS.ANALYSIS_FAILED ∨ f.status = FILE_STATUS.ANALYSIS_IN_PROGRESS)
    (hexcl : env.excludeFile f w = .ok false) :
    (p.run env (some f) w).raised = none ∧
    (p.run env (some f) w).file = some f ∧
    (p.run env (some f) w).world.fileStatus = w.fileStatus ∧
    (p.run env (some f) w).world.moduleStatus = w.moduleStatus ∧
    (p.run env (some f) w).newEvents w = [Event.excludeFile f.id] := by
  have hnr : f.status ≠ FILE_STATUS.READY_FOR_ANALYSIS := by
    rcases hstatus with h | h | h | h <;> simp [h]
  rw [run_some p env f w hne]
  simp [tryBlock, excludeFile, hexcl, hnr, World.emit, Outcome.newEvents]

/-- Witness for C3, amended: a file whose analysis is complete and that is not excluded is
left as it is; the only call is the exclusion check. -/
theorem run_skips_file_not_ready_witness :
    (pipelineOkFailOk.run quietServices (some completeFile) completeWorld).file = some completeFile ∧
    (pipelineOkFailOk.run quietServices (some completeFile) completeWorld).world.moduleStatus = [] ∧
    (pipelineOkFailOk.run quietServices (some completeFile) completeWorld).newEvents completeWorld
      = [Event.excludeFile 7] := by
  have h := run_skips_file_not_ready pipelineOkFailOk quietServices completeFile completeWorld
    (by simp [pipelineOkFailOk]) (Or.inr (Or.inl rfl)) rfl
  exact ⟨h.2.1, h.2.2.2.1, h.2.2.2.2⟩

/-- C4: for a non-empty module list and a file that matches the exclusion policy, whatever
its status, `run` calls no module, writes no module record, does not call `saveFile` or
`deleteFile` and leaves the file on disk as it was; when the status write does not throw, `run`
returns normally with the status `ANALYSIS_SKIPPED` in the handle and in the database, its
calls being the exclusion check and that status write. -/
theorem run_skips_excluded_file (p : TskFileAnalysisPipeline) (env : Services)
    (f : TskFile) (w : World)
    (hne : p.m_modules ≠ [])
    (hexcl : env.excludeFile f w = .ok true) :
    moduleCalls ((p.run env (some f) w).newEvents w) = [] ∧
    (p.run env (some f) w).world.moduleStatus = w.moduleStatus ∧
    (∀ ev ∈ (p.run env (some f) w).newEvents w, ∀ i j s,
      ev ≠ Event.saveFile i ∧ ev ≠ Event.deleteFile i ∧ ev ≠ Event.setModuleStatus i j s) ∧
    (p.run env (some f) w).file.map TskFile.fileExists = some f.fileExists ∧
    ((∀ v, env.setStatus f FILE_STATUS.ANALYSIS_SKIPPED v = none) →
      (p.run env (some f) w).raised = none ∧
      (p.run env (some f) w).status = some FILE_STATUS.ANALYSIS_SKIPPED ∧
      (p.run env (some f) w).world.fileStatus f.id = FILE_STATUS.ANALYSIS_SKIPPED ∧
      (p.run env (some f) w).newEvents w
        = [Event.excludeFile f.id, Event.setStatus f.id FILE_STATUS.ANALYSIS_SKIPPED]) := by
  rw [run_some p env f w hne]
  cases hw : env.setStatus f FILE_STATUS.ANALYSIS_SKIPPED (w.emit (Event.excludeFile f.id)) with
  | none =>
    have hs : tryBlock p env f w = .done () { f with status := FILE_STATUS.ANALYSIS_SKIPPED }
        (((w.emit (.excludeFile f.id)).emit (.setStatus f.id FILE_STATUS.ANALYSIS_SKIPPED)).updateFileStatus
          f.id FILE_STATUS.ANALYSIS_SKIPPED) := by
      simp only [tryBlock, excludeFile, hexcl, andThen_done, if_true, setStatus, hw]
    rw [hs]
    simp [World.emit, World.updateFileStatus, Outcome.newEvents, Outcome.status, Event.moduleCall]
  | some e =>
    have hnot : ¬ ∀ v, env.setStatus f FILE_STATUS.ANALYSIS_SKIPPED v = none := fun h => by
      simp [h] at hw
    have hs : tryBlock p env f w = .threw e f
        ((w.emit (.excludeFile f.id)).emit (.setStatus f.id FILE_STATUS.ANALYSIS_SKIPPED)) := by
      simp only [tryBlock, excludeFile, hexcl, andThen_done, if_true, setStatus, hw]
    rw [hs]
    simp [World.emit, World.updateFileStatus, Outcome.newEvents, Outcome.status, Event.moduleCall,
      catchBlock, hnot]

/-- Witness for C4: an excluded ready file ends with the status `ANALYSIS_SKIPPED`, without
module call or module record. -/
theorem run_skips_excluded_file_witness :
    moduleCalls ((pipelineOkFailOk.run excludingServices (some readyFile) freshWorld).newEvents
      freshWorld) = [] ∧
    (pipelineOkFailOk.run excludingServices (some readyFile) freshWorld).world.moduleStatus = [] ∧
    (pipelineOkFailOk.run excludingServices (some readyFile) freshWorld).status
      = some FILE_STATUS.ANALYSIS_SKIPPED ∧
    (pipelineOkFailOk.run excludingServices (some readyFile) freshWorld).newEvents freshWorld
      = [Event.excludeFile 7, Event.setStatus 7 FILE_STATUS.ANALYSIS_SKIPPED] := by
  have h := run_skips_excluded_file pipelineOkFailOk excludingServices readyFile freshWorld
    (by simp [pipelineOkFailOk]) rfl
  have h2 := h.2.2.2.2 (fun _ => rfl)
  exact ⟨h.1, h.2.1, h2.2.1, h2.2.2.2⟩

/-- C9: for a ready file that is not excluded, with services that do not throw: if the module
loop ends with a status other than `ANALYSIS_IN_PROGRESS`, `run` returns normally with
exactly that status in the handle, leaves the persisted statuses as the loop left them, and
makes no status write after the loop, whatever the value of the failure flag. -/
theorem run_keeps_status_set_by_module (p : TskFileAnalysisPipeline) (env : Services)
    (f : TskFile) (w : World) (bModuleFailed : Bool) (f1 : TskFile) (w1 : World)
    (hne : p.m_modules ≠ [])
    (hready : f.status = FILE_STATUS.READY_FOR_ANALYSIS)
    (hexcl : env.excludeFile f w = .ok false)
    (henv : env.Reliable)
    (hloop : moduleLoop env p.m_modules false (entryFile p f) (entryWorld p f w)
      = .done bModuleFailed f1 w1)
    (hset : f1.status ≠ FILE_STATUS.ANALYSIS_IN_PROGRESS) :
    (p.run env (some f) w).raised = none ∧
    (p.run env (some f) w).status = some f1.status ∧
    (p.run env (some f) w).world.fileStatus = w1.fileStatus ∧
    (∀ ev ∈ (p.run env (some f) w).newEvents w1, ∀ i s, ev ≠ Event.setStatus i s) := by
  rw [run_of_loop_done p env f w hne hready hexcl henv _ _ _ hloop]
  refine ⟨rfl, by simp [Outcome.status, exitFile, finalStatusOf, hset],
    by simp [exitWorld, hset], ?_⟩
  intro ev hev i s
  simp only [Outcome.newEvents, exitWorld, List.drop_left, exitEvents, hset, if_false,
    List.append_nil] at hev
  split at hev <;> simp at hev
  simp [hev]

/-- Witness for C9: a module that sets the status `ANALYSIS_SKIPPED` and returns `FAIL`
leaves that status, in the handle and in the database, not `ANALYSIS_FAILED`. -/
theorem run_keeps_status_set_by_module_witness :
    (pipelineDisposing.run quietServices (some readyFile) freshWorld).raised = none ∧
    (pipelineDisposing.run quietServices (some readyFile) freshWorld).status
      = some FILE_STATUS.ANALYSIS_SKIPPED ∧
    (pipelineDisposing.run quietServices (some readyFile) freshWorld).world.fileStatus 7
      = FILE_STATUS.ANALYSIS_SKIPPED ∧
    (pipelineDisposing.run quietServices (some readyFile) freshWorld).newRecords freshWorld
      = [(7, 1, Status.FAIL)] := by
  have h := run_keeps_status_set_by_module pipelineDisposing quietServices readyFile freshWorld
    true
    (moduleLoop quietServices pipelineDisposing.m_modules false
      (entryFile pipelineDisposing readyFile) (entryWorld pipelineDisposing readyFile freshWorld)).file
    (moduleLoop quietServices pipelineDisposing.m_modules false
      (entryFile pipelineDisposing readyFile) (entryWorld pipelineDisposing readyFile freshWorld)).world
    (by simp [pipelineDisposing]) rfl rfl (by simp [Services.Reliable, quietServices])
    rfl (by decide)
  exact ⟨h.1, h.2.1, by decide, by decide⟩

/-- C10: with an empty module list both overloads of `run` return normally and change
nothing, for every file identifier and every handle, the null handle included: the persisted
statuses, the module records and the log of calls are as before, so there is no status
write, no exclusion check, no file lookup, no `saveFile` or `deleteFile` and no module
record. -/
theorem run_empty_pipeline_is_noop (p : TskFileAnalysisPipeline) (env : Services)
    (file : Option TskFile) (fileId : Nat) (w : World) (hempty : p.m_modules = []) :
    (p.run env file w).raised = none ∧ (p.run env file w).world = w ∧
    (p.run env file w).file = file ∧
    (p.runId env fileId w).raised = none ∧ (p.runId env fileId w).world = w := by
  simp [TskFileAnalysisPipeline.run, TskFileAnalysisPipeline.runId, hempty]

/-- Witness for C10: the empty pipeline on a null handle and on a file identifier. -/
theorem run_empty_pipeline_is_noop_witness :
    (pipelineEmpty.run quietServices none freshWorld).raised = none ∧
    (pipelineEmpty.run quietServices none freshWorld).world = freshWorld ∧
    (pipelineEmpty.run quietServices none freshWorld).file = none ∧
    (pipelineEmpty.runId quietServices 7 freshWorld).raised = none ∧
    (pipelineEmpty.runId quietServices 7 freshWorld).world = freshWorld :=
  run_empty_pipeline_is_noop pipelineEmpty quietServices none 7 freshWorld rfl

theorem invoke_spec (m : TskModule) (f : TskFile) (w : World) :
    (m.invoke f w).world.log = w.log ++ [Event.moduleRun m.moduleId f (m.invoke f w).value] ∧
    (m.invoke f w).world.moduleStatus = w.moduleStatus ∧
    (m.invoke f w).file.id = f.id ∧ (m.invoke f w).file.typeId = f.typeId := by
  unfold TskModule.invoke
  cases hr : (m.run f w).result <;> cases hs : (m.run f w).newStatus <;>
    simp [hr, hs, Step.world, Step.file, Step.value, World.emit, World.updateFileStatus,
      Except.toOption]

theorem setModuleStatus_spec (env : Services) (m : TskModule) (s : Status) (f : TskFile)
    (w : World) :
    (setModuleStatus env m s f w).world.log = w.log ++ [Event.setModuleStatus f.id m.moduleId s] ∧
    (setModuleStatus env m s f w).file = f ∧
    ((setModuleStatus env m s f w).thrown = none →
      (setModuleStatus env m s f w).world.moduleStatus = w.moduleStatus ++ [(f.id, m.moduleId, s)]) ∧
    ((setModuleStatus env m s f w).thrown ≠ none →
      (setModuleStatus env m s f w).world.moduleStatus = w.moduleStatus) := by
  unfold setModuleStatus
  cases env.setModuleStatus f.id m.moduleId s w <;>
    simp [Step.world, Step.file, Step.thrown, World.emit, World.setModuleStatus]

theorem moduleLoop_tracks (env : Services) :
    ∀ (ms : List TskModule) (b : Bool) (f : TskFile) (w : World),
      (moduleLoop env ms b f w).file.id = f.id ∧
      (moduleLoop env ms b f w).file.typeId = f.typeId ∧
      ∃ L R, (moduleLoop env ms b f w).world.log = w.log ++ L ∧
        (moduleLoop env ms b f w).world.moduleStatus = w.moduleStatus ++ R ∧
        Tracks ms f.id L R ∧
        (∀ ev ∈ L, (∃ i g r, ev = Event.moduleRun i g r) ∨ ∃ i j s, ev = Event.setModuleStatus i j s) := by
  intro ms
  induction ms with
  | nil =>
    intro b f w
    exact ⟨rfl, rfl, [], [], by simp [moduleLoop, Step.world], by simp [moduleLoop, Step.world],
      by simp [Tracks], by simp⟩
  | cons m rest ih =>
    intro b f w
    obtain ⟨hlog, hms, hid, hty⟩ := invoke_spec m f w
    cases hinv : m.invoke f w with
    | threw e f1 w1 =>
      rw [hinv] at hlog hms hid hty
      simp only [Step.world, Step.file, Step.value] at hlog hms hid hty
      refine ⟨by simp [moduleLoop, hinv, Step.file, hid], by simp [moduleLoop, hinv, Step.file, hty],
        [Event.moduleRun m.moduleId f none], [], by simp [moduleLoop, hinv, Step.world, hlog],
        by simp [moduleLoop, hinv, Step.world, hms], ?_, ?_⟩
      · simp [Tracks, Event.moduleCall, recordOf]
      · intro ev hev
        simp at hev
        exact Or.inl ⟨_, _, _, hev⟩
    | done s f1 w1 =>
      rw [hinv] at hlog hms hid hty
      simp only [Step.world, Step.file, Step.value] at hlog hms hid hty
      obtain ⟨hlog2, hf2, hok2, hbad2⟩ := setModuleStatus_spec env m s f1 w1
      cases hrec : setModuleStatus env m s f1 w1 with
      | threw e f2 w2 =>
        rw [hrec] at hlog2 hf2 hbad2
        simp only [Step.world, Step.file, Step.thrown] at hlog2 hf2 hbad2
        have hbad3 := hbad2 (by simp)
        subst hf2
        refine ⟨by simp [moduleLoop, hinv, hrec, Step.file, hid],
          by simp [moduleLoop, hinv, hrec, Step.file, hty],
          [Event.moduleRun m.moduleId f (some s), Event.setModuleStatus f2.id m.moduleId s], [],
          by simp [moduleLoop, hinv, hrec, Step.world, hlog2, hlog],
          by simp [moduleLoop, hinv, hrec, Step.world, hbad3, hms], ?_, ?_⟩
        · simp [Tracks, Event.moduleCall, recordOf]
        · intro ev hev
          simp at hev
          rcases hev with h | h
          · exact Or.inl ⟨_, _, _, h⟩
          · exact Or.inr ⟨_, _, _, h⟩
      | done u f2 w2 =>
        rw [hrec] at hlog2 hf2 hok2
        simp only [Step.world, Step.file, Step.thrown] at hlog2 hf2 hok2
        have hok3 := hok2 trivial
        subst hf2
        by_cases hstop : s = Status.STOP
        · subst hstop
          refine ⟨by simp [moduleLoop, hinv, hrec, Step.file, hid],
            by simp [moduleLoop, hinv, hrec, Step.file, hty],
            [Event.moduleRun m.moduleId f (some Status.STOP),
              Event.setModuleStatus f2.id m.moduleId Status.STOP],
            [(f.id, m.moduleId, Status.STOP)],
            by simp [moduleLoop, hinv, hrec, Step.world, hlog2, hlog],
            by simp [moduleLoop, hinv, hrec, Step.world, hok3, hms, hid], ?_, ?_⟩
          · simp [Tracks, Event.moduleCall, recordOf]
          · intro ev hev
            simp at hev
            rcases hev with h | h
            · exact Or.inl ⟨_, _, _, h⟩
            · exact Or.inr ⟨_, _, _, h⟩
        · have hloop : moduleLoop env (m :: rest) b f w
              = moduleLoop env rest (if s = Status.FAIL then true else b) f2 w2 := by
            simp [moduleLoop, hinv, hrec, hstop]
          have ih1 := ih (if s = Status.FAIL then true else b) f2 w2
          rw [← hloop] at ih1
          obtain ⟨hid3, hty3, L, R, hL, hR, ⟨hT1, hT2, t, hT3⟩, hev⟩ := ih1
          refine ⟨by rw [hid3, hid], by rw [hty3, hty],
            [Event.moduleRun m.moduleId f (some s), Event.setModuleStatus f2.id m.moduleId s] ++ L,
            [(f.id, m.moduleId, s)] ++ R,
            by rw [hL, hlog2, hlog]; simp, by rw [hR, hok3, hms, hid]; simp, ⟨?_, ?_, t, ?_⟩, ?_⟩
          · simp [Event.moduleCall, hT1]
          · intro c hc
            simp only [List.cons_append, List.nil_append, moduleCalls_cons, Event.moduleCall,
              Option.toList_some, Option.toList_none, List.singleton_append] at hc
            cases hcalls : moduleCalls L with
            | nil => simp [hcalls] at hc
            | cons c1 cs =>
              rw [hcalls, List.dropLast_cons₂] at hc
              rcases List.mem_cons.1 hc with h | h
              · subst h
                simp [hstop]
              · exact hT2 c (by rw [hcalls]; exact h)
          · rw [hid] at hT3
            simp [Event.moduleCall, recordOf, hT3]
          · intro ev hev1
            simp at hev1
            rcases hev1 with h | h | h
            · exact Or.inl ⟨_, _, _, h⟩
            · exact Or.inr ⟨_, _, _, h⟩
            · exact hev ev h

theorem excludeFile_spec (env : Services) (f : TskFile) (w : World) :
    (excludeFile env f w).file = f ∧
    (excludeFile env f w).world = w.emit (Event.excludeFile f.id) := by
  unfold excludeFile
  cases env.excludeFile f w <;> simp [Step.file, Step.world]

theorem setStatus_spec (env : Services) (s : FILE_STATUS) (f : TskFile) (w : World) :
    (setStatus env s f w).world.log = w.log ++ [Event.setStatus f.id s] ∧
    (setStatus env s f w).world.moduleStatus = w.moduleStatus ∧
    (setStatus env s f w).file.id = f.id ∧ (setStatus env s f w).file.typeId = f.typeId ∧
    (setStatus env s f w).file.fileExists = f.fileExists := by
  unfold setStatus
  cases env.setStatus f s w <;>
    simp [Step.file, Step.world, World.emit, World.updateFileStatus]

theorem saveFile_spec (env : Services) (f : TskFile) (w : World) :
    (saveFile env f w).world.log = w.log ++ [Event.saveFile f.id] ∧
    (saveFile env f w).world.moduleStatus = w.moduleStatus ∧
    (saveFile env f w).world.fileStatus = w.fileStatus ∧
    (saveFile env f w).file.id = f.id ∧ (saveFile env f w).file.typeId = f.typeId ∧
    (saveFile env f w).file.status = f.status := by
  unfold saveFile
  cases env.saveFile f w <;> simp [Step.file, Step.world, World.emit]

theorem deleteFile_spec (env : Services) (f : TskFile) (w : World) :
    (deleteFile env f w).world.log = w.log ++ [Event.deleteFile f.id] ∧
    (deleteFile env f w).world.moduleStatus = w.moduleStatus ∧
    (deleteFile env f w).world.fileStatus = w.fileStatus ∧
    (deleteFile env f w).file.id = f.id ∧ (deleteFile env f w).file.typeId = f.typeId ∧
    (deleteFile env f w).file.status = f.status := by
  unfold deleteFile
  cases env.deleteFile f w <;> simp [Step.file, Step.world, World.emit]

theorem invoke_fileExists (m : TskModule) (f : TskFile) (w : World) :
    (m.invoke f w).file.fileExists = (m.run f w).fileExists := by
  unfold TskModule.invoke
  cases hr : (m.run f w).result <;> simp [hr, Step.file]

/-- Sequencing: if the first fragment relates its start to its end by `R1`, and what follows
relates by `R2`, then the whole relates by `R3`, provided `R1` followed by `R2` gives `R3`
and `R1` alone gives `R3`. -/
theorem andThen_rel {α β : Type} {R1 R2 R3 : TskFile → World → TskFile → World → Prop}
    (hcomp : ∀ f w f1 w1 f2 w2, R1 f w f1 w1 → R2 f1 w1 f2 w2 → R3 f w f2 w2)
    (hsub : ∀ f w f1 w1, R1 f w f1 w1 → R3 f w f1 w1)
    (f : TskFile) (w : World) (r : Step α) (k : α → TskFile → World → Step β)
    (h1 : R1 f w r.file r.world)
    (h2 : ∀ a f1 w1, r = .done a f1 w1 → R2 f1 w1 (k a f1 w1).file (k a f1 w1).world) :
    R3 f w (r.andThen k).file (r.andThen k).world := by
  cases r with
  | done a f1 w1 => exact hcomp _ _ _ _ _ _ h1 (h2 a f1 w1 rfl)
  | threw e f1 w1 => exact hsub _ _ _ _ h1

theorem andThen_trans {α β : Type} {R : TskFile → World → TskFile → World → Prop}
    (htrans : ∀ f w f1 w1 f2 w2, R f w f1 w1 → R f1 w1 f2 w2 → R f w f2 w2)
    (f : TskFile) (w : World) (r : Step α) (k : α → TskFile → World → Step β)
    (h1 : R f w r.file r.world)
    (h2 : ∀ a f1 w1, r = .done a f1 w1 → R f1 w1 (k a f1 w1).file (k a f1 w1).world) :
    R f w (r.andThen k).file (r.andThen k).world :=
  andThen_rel htrans (fun _ _ _ _ h => h) f w r k h1 h2

/-- Every state that the loop reaches is related to its start by `R`, when `R` is reflexive
and transitive and holds across every module call and every record write. -/
theorem moduleLoop_preserves (env : Services) {R : TskFile → World → TskFile → World → Prop}
    (hrefl : ∀ f w, R f w f w)
    (htrans : ∀ f w f1 w1 f2 w2, R f w f1 w1 → R f1 w1 f2 w2 → R f w f2 w2) :
    ∀ (ms : List TskModule) (b : Bool) (f : TskFile) (w : World),
      (∀ m ∈ ms, ∀ g v, R g v (m.invoke g v).file (m.invoke g v).world) →
      (∀ m ∈ ms, ∀ s g v, R g v (setModuleStatus env m s g v).file (setModuleStatus env m s g v).world) →
      R f w (moduleLoop env ms b f w).file (moduleLoop env ms b f w).world := by
  intro ms
  induction ms with
  | nil =>
    intro b f w _ _
    exact hrefl f w
  | cons m rest ih =>
    intro b f w hinv hrec
    unfold moduleLoop
    refine andThen_trans htrans f w _ _ (hinv m (List.mem_cons_self _ _) f w) ?_
    intro s f1 w1 _
    refine andThen_trans htrans f1 w1 _ _ (hrec m (List.mem_cons_self _ _) s f1 w1) ?_
    intro _ f2 w2 _
    dsimp only
    split
    · exact hrefl f2 w2
    · exact ih _ f2 w2 (fun x hx => hinv x (List.mem_cons_of_mem _ hx))
        (fun x hx => hrec x (List.mem_cons_of_mem _ hx))

/-- Every state that the `try` block reaches is related to its start by `R`, when `R` is
reflexive and transitive and holds across every call that the block can make. -/
theorem tryBlock_preserves (p : TskFileAnalysisPipeline) (env : Services)
    {R : TskFile → World → TskFile → World → Prop} (f : TskFile) (w : World)
    (hrefl : ∀ f w, R f w f w)
    (htrans : ∀ f w f1 w1 f2 w2, R f w f1 w1 → R f1 w1 f2 w2 → R f w f2 w2)
    (hexcl : ∀ g v, R g v (excludeFile env g v).file (excludeFile env g v).world)
    (hset : ∀ s g v, R g v (setStatus env s g v).file (setStatus env s g v).world)
    (hsave : ∀ g v, p.m_hasExeModule = true → g.fileExists = false → f.fileExists = false →
      R g v (saveFile env g v).file (saveFile env g v).world)
    (hinv : ∀ m ∈ p.m_modules, ∀ g v, R g v (m.invoke g v).file (m.invoke g v).world)
    (hrec : ∀ m ∈ p.m_modules, ∀ s g v,
      R g v (setModuleStatus env m s g v).file (setModuleStatus env m s g v).world)
    (hdel : ∀ g v, g.typeId ≠ FILE_TYPES.CARVED → g.typeId ≠ FILE_TYPES.DERIVED →
      g.fileExists = true → R g v (deleteFile env g v).file (deleteFile env g v).world) :
    R f w (tryBlock p env f w).file (tryBlock p env f w).world := by
  unfold tryBlock
  refine andThen_trans htrans f w _ _ (hexcl f w) ?_
  intro excluded f0 w0 h0
  dsimp only
  have hf0 : f0 = f := by
    have := (excludeFile_spec env f w).1
    rw [h0] at this
    exact this
  split
  · exact hset _ f0 w0
  split
  · exact hrefl f0 w0
  refine andThen_trans htrans f0 w0 _ _ (hset _ f0 w0) ?_
  intro _ f1 w1 h1
  have hf1 : f1.fileExists = f.fileExists := by
    have := (setStatus_spec env FILE_STATUS.ANALYSIS_IN_PROGRESS f0 w0).2.2.2.2
    rw [h1, hf0] at this
    exact this
  refine andThen_trans htrans f1 w1 _ _ ?_ ?_
  · unfold materialize
    split
    · rename_i h
      simp only [Bool.and_eq_true, Bool.not_eq_true'] at h
      exact hsave f1 w1 h.1 h.2 (by rw [← hf1]; exact h.2)
    · exact hrefl f1 w1
  intro _ f2 w2 _
  refine andThen_trans htrans f2 w2 _ _ (moduleLoop_preserves env hrefl htrans _ _ f2 w2 hinv hrec) ?_
  intro b f3 w3 _
  refine andThen_trans htrans f3 w3 _ _ ?_ ?_
  · unfold cleanup
    split
    · rename_i h
      exact hdel f3 w3 h.1 h.2.1 h.2.2
    · exact hrefl f3 w3
  intro _ f4 w4 _
  unfold finalStatus
  split
  · split
    · exact hset _ f4 w4
    · exact hset _ f4 w4
  · exact hrefl f4 w4

/-- What `run` on a handle leaves, in terms of what the `try` block leaves. -/
theorem run_spec (p : TskFileAnalysisPipeline) (env : Services) (f : TskFile) (w : World)
    (hne : p.m_modules ≠ []) :
    (p.run env (some f) w).raised = (tryBlock p env f w).thrown ∧
    (p.run env (some f) w).file = some (tryBlock p env f w).file ∧
    (p.run env (some f) w).world.moduleStatus = (tryBlock p env f w).world.moduleStatus ∧
    (p.run env (some f) w).world.log = (tryBlock p env f w).world.log
      ++ catchEvents (tryBlock p env f w).file.id (tryBlock p env f w).thrown ∧
    ((tryBlock p env f w).thrown = none →
      (p.run env (some f) w).world.fileStatus = (tryBlock p env f w).world.fileStatus) ∧
    ((tryBlock p env f w).thrown ≠ none →
      (p.run env (some f) w).world.fileStatus = Function.update (tryBlock p env f w).world.fileStatus
        (tryBlock p env f w).file.id FILE_STATUS.ANALYSIS_FAILED) := by
  rw [run_some p env f w hne]
  cases tryBlock p env f w <;>
    simp [Step.thrown, Step.file, Step.world, catchBlock, catchEvents, World.emit,
      World.updateFileStatus]

/-- C8: for a file of type `CARVED` or `DERIVED`, whatever the module list, the services
and the modules do (return `OK`, `FAIL` or `STOP`, or throw), `run` makes no call of
`deleteFile`; and if the file is on disk before `run` and no module removes a file that is
on disk, the file is on disk after `run`. -/
theorem run_never_deletes_carved_or_derived (p : TskFileAnalysisPipeline) (env : Services)
    (f : TskFile) (w : World)
    (htype : f.typeId = FILE_TYPES.CARVED ∨ f.typeId = FILE_TYPES.DERIVED) :
    (∀ ev ∈ (p.run env (some f) w).newEvents w, ∀ i, ev ≠ Event.deleteFile i) ∧
    (f.fileExists = true →
      (∀ m ∈ p.m_modules, ∀ g v, g.fileExists = true → (m.run g v).fileExists = true) →
      (p.run env (some f) w).file.map TskFile.fileExists = some true) := by
  by_cases hne : p.m_modules = []
  · simp [TskFileAnalysisPipeline.run, hne, Outcome.newEvents]
  obtain ⟨_, hfile, _, hlog, _, _⟩ := run_spec p env f w hne
  constructor
  · have h := tryBlock_preserves p env f w
      (R := fun g v g1 v1 => g1.typeId = g.typeId ∧
        ((g.typeId = FILE_TYPES.CARVED ∨ g.typeId = FILE_TYPES.DERIVED) →
          ∃ L, v1.log = v.log ++ L ∧ ∀ ev ∈ L, ∀ i, ev ≠ Event.deleteFile i))
      (fun g v => ⟨rfl, fun _ => ⟨[], by simp⟩⟩)
      (fun g v g1 v1 g2 v2 h1 h2 => ⟨h2.1.trans h1.1, fun hcd => by
        obtain ⟨L1, hL1, hn1⟩ := h1.2 hcd
        obtain ⟨L2, hL2, hn2⟩ := h2.2 (by rw [h1.1]; exact hcd)
        refine ⟨L1 ++ L2, by rw [hL2, hL1, List.append_assoc], ?_⟩
        intro ev hev
        rcases List.mem_append.1 hev with h | h
        · exact hn1 ev h
        · exact hn2 ev h⟩)
      (fun g v => by
        obtain ⟨h1, h2⟩ := excludeFile_spec env g v
        rw [h1, h2]
        exact ⟨rfl, fun _ => ⟨[Event.excludeFile g.id], rfl, by simp⟩⟩)
      (fun s g v => by
        obtain ⟨h1, _, _, h4, _⟩ := setStatus_spec env s g v
        exact ⟨h4, fun _ => ⟨_, h1, by simp⟩⟩)
      (fun g v _ _ _ => by
        obtain ⟨h1, _, _, _, h4, _⟩ := saveFile_spec env g v
        exact ⟨h4, fun _ => ⟨_, h1, by simp⟩⟩)
      (fun m _ g v => by
        obtain ⟨h1, _, _, h4⟩ := invoke_spec m g v
        exact ⟨h4, fun _ => ⟨_, h1, by simp⟩⟩)
      (fun m _ s g v => by
        obtain ⟨h1, h2, _, _⟩ := setModuleStatus_spec env m s g v
        rw [h2]
        exact ⟨rfl, fun _ => ⟨_, h1, by simp⟩⟩)
      (fun g v hc hd _ => by
        obtain ⟨_, _, _, _, h4, _⟩ := deleteFile_spec env g v
        exact ⟨h4, fun hcd => by rcases hcd with h | h <;> contradiction⟩)
    obtain ⟨L, hL, hn⟩ := h.2 htype
    intro ev hev i
    rw [Outcome.newEvents, hlog, hL, List.append_assoc, List.drop_left] at hev
    rcases List.mem_append.1 hev with h1 | h1
    · exact hn ev h1 i
    · cases hthrown : (tryBlock p env f w).thrown <;>
        simp [hthrown, catchEvents] at h1
      rcases h1 with h1 | h1 <;> simp [h1]
  · intro hex hkeep
    have h := tryBlock_preserves p env f w
      (R := fun g _ g1 _ => g1.typeId = g.typeId ∧
        ((g.typeId = FILE_TYPES.CARVED ∨ g.typeId = FILE_TYPES.DERIVED) →
          g.fileExists = true → g1.fileExists = true))
      (fun g v => ⟨rfl, fun _ h => h⟩)
      (fun g v g1 v1 g2 v2 h1 h2 => ⟨h2.1.trans h1.1, fun hcd hx =>
        h2.2 (by rw [h1.1]; exact hcd) (h1.2 hcd hx)⟩)
      (fun g v => by
        obtain ⟨h1, _⟩ := excludeFile_spec env g v
        rw [h1]
        exact ⟨rfl, fun _ h => h⟩)
      (fun s g v => by
        obtain ⟨_, _, _, h4, h5⟩ := setStatus_spec env s g v
        exact ⟨h4, fun _ hx => by rw [h5]; exact hx⟩)
      (fun g v _ hx _ => by
        obtain ⟨_, _, _, _, h4, _⟩ := saveFile_spec env g v
        exact ⟨h4, fun _ hx1 => by rw [hx] at hx1; contradiction⟩)
      (fun m hm g v => by
        obtain ⟨_, _, _, h4⟩ := invoke_spec m g v
        exact ⟨h4, fun _ hx => by rw [invoke_fileExists]; exact hkeep m hm g v hx⟩)
      (fun m _ s g v => by
        obtain ⟨_, h2, _, _⟩ := setModuleStatus_spec env m s g v
        rw [h2]
        exact ⟨rfl, fun _ hx => hx⟩)
      (fun g v hc hd _ => by
        obtain ⟨_, _, _, _, h4, _⟩ := deleteFile_spec env g v
        exact ⟨h4, fun hcd => by rcases hcd with h | h <;> contradiction⟩)
    rw [hfile]
    simp [h.2 htype hex]

/-- Witness for C8: a carved file on disk, in a pipeline whose second module throws, is
never deleted and is on disk after the run. -/
theorem run_never_deletes_carved_or_derived_witness :
    (∀ ev ∈ (pipelineOkThrowOk.run quietServices (some carvedFile) freshWorld).newEvents freshWorld,
      ∀ i, ev ≠ Event.deleteFile i) ∧
    (pipelineOkThrowOk.run quietServices (some carvedFile) freshWorld).file.map TskFile.fileExists
      = some true := by
  have h := run_never_deletes_carved_or_derived pipelineOkThrowOk quietServices carvedFile
    freshWorld (Or.inl rfl)
  exact ⟨h.1, h.2 rfl (by simp [pipelineOkThrowOk, constModule, throwingModule])⟩

theorem quiet_refl (f : TskFile) (w : World) : Quiet f w f w :=
  ⟨rfl, rfl, rfl, [], by simp, rfl⟩

theorem quiet_trans (f : TskFile) (w : World) (f1 : TskFile) (w1 : World) (f2 : TskFile)
    (w2 : World) (h1 : Quiet f w f1 w1) (h2 : Quiet f1 w1 f2 w2) : Quiet f w f2 w2 := by
  obtain ⟨a1, b1, c1, L1, d1, e1⟩ := h1
  obtain ⟨a2, b2, c2, L2, d2, e2⟩ := h2
  exact ⟨a2.trans a1, b2.trans b1, c2.trans c1, L1 ++ L2, by rw [d2, d1, List.append_assoc],
    by simp [e1, e2]⟩

theorem quiet_follows (ms : List TskModule) (f : TskFile) (w : World) (f1 : TskFile) (w1 : World)
    (h : Quiet f w f1 w1) : Follows ms f w f1 w1 := by
  obtain ⟨a1, b1, c1, L1, d1, e1⟩ := h
  exact ⟨a1, b1, L1, [], d1, by simp [c1], by simp [Tracks, e1]⟩

theorem quiet_comp_follows (ms : List TskModule) (f : TskFile) (w : World) (f1 : TskFile)
    (w1 : World) (f2 : TskFile) (w2 : World) (h1 : Quiet f w f1 w1)
    (h2 : Follows ms f1 w1 f2 w2) : Follows ms f w f2 w2 := by
  obtain ⟨a1, b1, c1, L1, d1, e1⟩ := h1
  obtain ⟨a2, b2, L2, R2, d2, c2, t2⟩ := h2
  refine ⟨a2.trans a1, b2.trans b1, L1 ++ L2, R2, by rw [d2, d1, List.append_assoc],
    by rw [c2, c1], ?_⟩
  rw [a1] at t2
  simpa [Tracks, e1] using t2

theorem follows_comp_quiet (ms : List TskModule) (f : TskFile) (w : World) (f1 : TskFile)
    (w1 : World) (f2 : TskFile) (w2 : World) (h1 : Follows ms f w f1 w1)
    (h2 : Quiet f1 w1 f2 w2) : Follows ms f w f2 w2 := by
  obtain ⟨a1, b1, L1, R1, d1, c1, t1⟩ := h1
  obtain ⟨a2, b2, c2, L2, d2, e2⟩ := h2
  refine ⟨a2.trans a1, b2.trans b1, L1 ++ L2, R1, by rw [d2, d1, List.append_assoc],
    by rw [c2, c1], ?_⟩
  simpa [Tracks, e2] using t1

theorem setStatus_quiet (env : Services) (s : FILE_STATUS) (f : TskFile) (w : World) :
    Quiet f w (setStatus env s f w).file (setStatus env s f w).world := by
  obtain ⟨h1, h2, h3, h4, _⟩ := setStatus_spec env s f w
  exact ⟨h3, h4, h2, _, h1, by simp [Event.moduleCall]⟩

theorem saveFile_quiet (env : Services) (f : TskFile) (w : World) :
    Quiet f w (saveFile env f w).file (saveFile env f w).world := by
  obtain ⟨h1, h2, _, h3, h4, _⟩ := saveFile_spec env f w
  exact ⟨h3, h4, h2, _, h1, by simp [Event.moduleCall]⟩

theorem deleteFile_quiet (env : Services) (f : TskFile) (w : World) :
    Quiet f w (deleteFile env f w).file (deleteFile env f w).world := by
  obtain ⟨h1, h2, _, h3, h4, _⟩ := deleteFile_spec env f w
  exact ⟨h3, h4, h2, _, h1, by simp [Event.moduleCall]⟩

theorem excludeFile_quiet (env : Services) (f : TskFile) (w : World) :
    Quiet f w (excludeFile env f w).file (excludeFile env f w).world := by
  obtain ⟨h1, h2⟩ := excludeFile_spec env f w
  rw [h1, h2]
  exact ⟨rfl, rfl, rfl, [Event.excludeFile f.id], rfl, by simp [Event.moduleCall]⟩

theorem moduleLoop_follows (env : Services) (ms : List TskModule) (b : Bool) (f : TskFile)
    (w : World) :
    Follows ms f w (moduleLoop env ms b f w).file (moduleLoop env ms b f w).world := by
  obtain ⟨h1, h2, L, R, h3, h4, h5, _⟩ := moduleLoop_tracks env ms b f w
  exact ⟨h1, h2, L, R, h3, h4, h5⟩

theorem exit_quiet (env : Services) (b : Bool) (f : TskFile) (w : World) :
    Quiet f w ((cleanup env f w).andThen fun _ f w => finalStatus env b f w).file
      ((cleanup env f w).andThen fun _ f w => finalStatus env b f w).world := by
  refine andThen_trans quiet_trans f w _ _ ?_ ?_
  · unfold cleanup
    split
    · exact deleteFile_quiet env f w
    · exact quiet_refl f w
  · intro _ f1 w1 _
    unfold finalStatus
    split
    · split <;> exact setStatus_quiet env _ f1 w1
    · exact quiet_refl f1 w1

/-- The module calls and the module records of the `try` block follow the module list. -/
theorem tryBlock_follows (p : TskFileAnalysisPipeline) (env : Services) (f : TskFile) (w : World) :
    Follows p.m_modules f w (tryBlock p env f w).file (tryBlock p env f w).world := by
  unfold tryBlock
  refine andThen_rel (quiet_comp_follows p.m_modules) (quiet_follows p.m_modules) f w _ _
    (excludeFile_quiet env f w) ?_
  intro excluded f0 w0 _
  dsimp only
  split
  · exact quiet_follows _ _ _ _ _ (setStatus_quiet env _ f0 w0)
  split
  · exact quiet_follows _ _ _ _ _ (quiet_refl f0 w0)
  refine andThen_rel (quiet_comp_follows p.m_modules) (quiet_follows p.m_modules) f0 w0 _ _
    (setStatus_quiet env _ f0 w0) ?_
  intro _ f1 w1 _
  refine andThen_rel (quiet_comp_follows p.m_modules) (quiet_follows p.m_modules) f1 w1 _ _ ?_ ?_
  · unfold materialize
    split
    · exact saveFile_quiet env f1 w1
    · exact quiet_refl f1 w1
  intro _ f2 w2 _
  refine andThen_rel (follows_comp_quiet p.m_modules) (fun _ _ _ _ h => h) f2 w2 _ _
    (moduleLoop_follows env _ _ f2 w2) ?_
  intro b f3 w3 _
  exact exit_quiet env b f3 w3

theorem andThen_thrown_none {α β : Type} (r : Step α) (k : α → TskFile → World → Step β)
    (h : (r.andThen k).thrown = none) :
    ∃ a f1 w1, r = .done a f1 w1 ∧ (k a f1 w1).thrown = none := by
  cases r with
  | done a f1 w1 => exact ⟨a, f1, w1, rfl, h⟩
  | threw e f1 w1 => simp [Step.andThen, Step.thrown] at h

theorem setStatus_done (env : Services) (s : FILE_STATUS) (f : TskFile) (w : World)
    (h : (setStatus env s f w).thrown = none) :
    setStatus env s f w = .done () { f with status := s }
      ((w.emit (Event.setStatus f.id s)).updateFileStatus f.id s) := by
  unfold setStatus at h ⊢
  cases hs : env.setStatus f s w <;> simp [hs, Step.thrown] at h ⊢

theorem saveFile_done (env : Services) (f : TskFile) (w : World)
    (h : (saveFile env f w).thrown = none) :
    saveFile env f w = .done () { f with fileExists := true } (w.emit (Event.saveFile f.id)) := by
  unfold saveFile at h ⊢
  cases hs : env.saveFile f w <;> simp [hs, Step.thrown] at h ⊢

theorem deleteFile_done (env : Services) (f : TskFile) (w : World)
    (h : (deleteFile env f w).thrown = none) :
    deleteFile env f w = .done () { f with fileExists := false } (w.emit (Event.deleteFile f.id)) := by
  unfold deleteFile at h ⊢
  cases hs : env.deleteFile f w <;> simp [hs, Step.thrown] at h ⊢

theorem materialize_done (p : TskFileAnalysisPipeline) (env : Services) (f : TskFile) (w : World)
    (h : (materialize p env f w).thrown = none) :
    materialize p env f w = .done () { f with fileExists := f.fileExists || p.m_hasExeModule }
      { w with log := w.log ++
          if p.m_hasExeModule && !f.fileExists then [Event.saveFile f.id] else [] } := by
  unfold materialize at h ⊢
  obtain ⟨i, t, st, x⟩ := f
  cases x <;> cases hp : p.m_hasExeModule <;> simp [hp] at h ⊢
  rw [saveFile_done env _ w h]
  simp [World.emit]

theorem exit_done (env : Services) (b : Bool) (f : TskFile) (w : World)
    (h : ((cleanup env f w).andThen fun _ f w => finalStatus env b f w).thrown = none) :
    ((cleanup env f w).andThen fun _ f w => finalStatus env b f w)
      = .done () (exitFile b f) (exitWorld b f w) := by
  obtain ⟨_, f1, w1, h1, h2⟩ := andThen_thrown_none _ _ h
  rw [h1]
  simp only [andThen_done]
  have hc : (cleanup env f w).thrown = none := by rw [h1]; rfl
  unfold cleanup at h1 hc
  unfold finalStatus at h2 ⊢
  by_cases hdel : f.typeId ≠ FILE_TYPES.CARVED ∧ f.typeId ≠ FILE_TYPES.DERIVED ∧ f.fileExists = true
  · rw [if_pos hdel] at h1 hc
    rw [deleteFile_done env f w hc] at h1
    injection h1 with _ hf hw
    subst hf hw
    by_cases hst : f.status = FILE_STATUS.ANALYSIS_IN_PROGRESS
    · cases b
      · simp only [hst, if_true, Bool.false_eq_true, if_false] at h2 ⊢
        rw [setStatus_done env _ _ _ h2]
        simp [exitFile, exitWorld, exitEvents, finalStatusOf, hst, hdel, World.emit,
          World.updateFileStatus]
      · simp only [hst, if_true] at h2 ⊢
        rw [setStatus_done env _ _ _ h2]
        simp [exitFile, exitWorld, exitEvents, finalStatusOf, hst, hdel, World.emit,
          World.updateFileStatus]
    · simp [hst, exitFile, exitWorld, exitEvents, finalStatusOf, hdel, World.emit]
  · rw [if_neg hdel] at h1
    injection h1 with _ hf hw
    subst hf hw
    have hx : (f.fileExists && (decide (f.typeId = FILE_TYPES.CARVED) ||
        decide (f.typeId = FILE_TYPES.DERIVED))) = f.fileExists := by
      obtain ⟨i, t, st, x⟩ := f
      cases x <;> cases t <;> simp at hdel ⊢
    by_cases hst : f.status = FILE_STATUS.ANALYSIS_IN_PROGRESS
    · cases b
      · simp only [hst, if_true, Bool.false_eq_true, if_false] at h2 ⊢
        rw [setStatus_done env _ _ _ h2]
        simp [exitFile, exitWorld, exitEvents, finalStatusOf, hst, hdel, World.emit,
          World.updateFileStatus, hx]
      · simp only [hst, if_true] at h2 ⊢
        rw [setStatus_done env _ _ _ h2]
        simp [exitFile, exitWorld, exitEvents, finalStatusOf, hst, hdel, World.emit,
          World.updateFileStatus, hx]
    · simp [hst, exitFile, exitWorld, exitEvents, finalStatusOf, hdel, hx]

/-- A run of a ready file that is not excluded and that returns normally: the module loop
started in the entry state and finished, and `run` leaves what the cleanup and the final
status write make of the state at the end of the loop. -/
theorem run_normal (p : TskFileAnalysisPipeline) (env : Services) (f : TskFile) (w : World)
    (hne : p.m_modules ≠ [])
    (hready : f.status = FILE_STATUS.READY_FOR_ANALYSIS)
    (hexcl : env.excludeFile f w = .ok false)
    (hraised : (p.run env (some f) w).raised = none) :
    ∃ b f1 w1,
      moduleLoop env p.m_modules false (entryFile p f) (entryWorld p f w) = .done b f1 w1 ∧
      p.run env (some f) w
        = { file := some (exitFile b f1), world := exitWorld b f1 w1, raised := none } := by
  have hthrown : (tryBlock p env f w).thrown = none := by
    rw [← (run_spec p env f w hne).1]
    exact hraised
  have hrun := run_some p env f w hne
  unfold tryBlock at hthrown hrun
  simp only [excludeFile, hexcl, andThen_done, Bool.false_eq_true, if_false, hready, ne_eq,
    not_true_eq_false] at hthrown hrun
  obtain ⟨_, f1, w1, h1, hthrown⟩ := andThen_thrown_none _ _ hthrown
  have h1d := setStatus_done env _ _ _ (by rw [h1]; rfl)
  rw [h1d] at h1 hrun
  injection h1 with _ hf hw
  subst hf hw
  simp only [andThen_done] at hrun
  obtain ⟨_, f2, w2, h2, hthrown⟩ := andThen_thrown_none _ _ hthrown
  have h2d := materialize_done p env _ _ (by rw [h2]; rfl)
  rw [h2d] at h2 hrun
  injection h2 with _ hf hw
  subst hf hw
  simp only [andThen_done] at hrun
  obtain ⟨b, f3, w3, h3, hthrown⟩ := andThen_thrown_none _ _ hthrown
  have h3x : moduleLoop env p.m_modules false (entryFile p f) (entryWorld p f w) = .done b f3 w3 := by
    rw [← h3]
    simp [entryFile, entryWorld, entryEvents, World.emit, World.updateFileStatus]
  refine ⟨b, f3, w3, h3x, ?_⟩
  rw [hrun, h3]
  simp only [andThen_done]
  rw [exit_done env b f3 w3 hthrown]

@[simp]
theorem seenFiles_append (L M : List Event) :
    seenFiles (L ++ M) = seenFiles L ++ seenFiles M := by
  simp [seenFiles]

@[simp]
theorem seenFiles_nil : seenFiles [] = [] := rfl

@[simp]
theorem seenFiles_cons (ev : Event) (L : List Event) :
    seenFiles (ev :: L) = ev.seenFile.toList ++ seenFiles L := by
  cases h : ev.seenFile <;> simp [seenFiles, List.filterMap_cons, h]

theorem seenFiles_entryEvents (p : TskFileAnalysisPipeline) (f : TskFile) :
    seenFiles (entryEvents p f) = [] := by
  unfold entryEvents
  split <;> simp [Event.seenFile]

theorem seenFiles_exitEvents (b : Bool) (f : TskFile) : seenFiles (exitEvents b f) = [] := by
  unfold exitEvents
  split <;> split <;> simp [Event.seenFile]

theorem exitEvents_not_saveFile (b : Bool) (f : TskFile) :
    ∀ ev ∈ exitEvents b f, ∀ i, ev ≠ Event.saveFile i := by
  intro ev hev i
  unfold exitEvents at hev
  split at hev <;> split at hev <;> simp at hev
  · rcases hev with h | h <;> simp [h]
  · simp [hev]
  · simp [hev]

/-- The first call of the loop on a non-empty module list is the call of the first module,
with the handle the loop started with. -/
theorem moduleLoop_first_call (env : Services) (m : TskModule) (rest : List TskModule) (b : Bool)
    (f : TskFile) (w : World) :
    ∃ r L, (moduleLoop env (m :: rest) b f w).world.log
      = w.log ++ Event.moduleRun m.moduleId f r :: L := by
  obtain ⟨hlog, _, _, _⟩ := invoke_spec m f w
  unfold moduleLoop
  cases hinv : m.invoke f w with
  | threw e f1 w1 =>
    rw [hinv] at hlog
    exact ⟨_, [], by simpa [Step.world] using hlog⟩
  | done s f1 w1 =>
    rw [hinv] at hlog
    simp only [Step.world, Step.value] at hlog
    obtain ⟨hlog2, _, _, _⟩ := setModuleStatus_spec env m s f1 w1
    simp only [andThen_done]
    cases hrec : setModuleStatus env m s f1 w1 with
    | threw e f2 w2 =>
      rw [hrec] at hlog2
      simp only [Step.world] at hlog2
      exact ⟨some s, [Event.setModuleStatus f1.id m.moduleId s], by simp [Step.world, hlog2, hlog]⟩
    | done u f2 w2 =>
      rw [hrec] at hlog2
      simp only [Step.world] at hlog2
      simp only [andThen_done]
      split
      · exact ⟨some s, [Event.setModuleStatus f1.id m.moduleId s],
          by simp [Step.world, hlog2, hlog]⟩
      · obtain ⟨_, _, L, _, hL, _⟩ := moduleLoop_tracks env rest
          (if s = Status.FAIL then true else b) f2 w2
        exact ⟨some s, Event.setModuleStatus f1.id m.moduleId s :: L,
          by rw [hL, hlog2, hlog]; simp⟩

/-- If no module removes a file that is on disk and the file is on disk when the loop starts,
every module call of the loop is given a file that is on disk, and so is the end of the loop. -/
theorem moduleLoop_seen_on_disk (env : Services) (ms : List TskModule) (b : Bool) (f : TskFile)
    (w : World)
    (hkeep : ∀ m ∈ ms, ∀ g v, g.fileExists = true → (m.run g v).fileExists = true)
    (hx : f.fileExists = true) :
    (moduleLoop env ms b f w).file.fileExists = true ∧
    ∃ L, (moduleLoop env ms b f w).world.log = w.log ++ L ∧
      ∀ g ∈ seenFiles L, g.fileExists = true := by
  have h := moduleLoop_preserves env
    (R := fun g v g1 v1 => g.fileExists = true →
      g1.fileExists = true ∧ ∃ L, v1.log = v.log ++ L ∧ ∀ x ∈ seenFiles L, x.fileExists = true)
    (fun g v hg => ⟨hg, [], by simp⟩)
    (fun g v g1 v1 g2 v2 h1 h2 hg => by
      obtain ⟨a1, L1, b1, c1⟩ := h1 hg
      obtain ⟨a2, L2, b2, c2⟩ := h2 a1
      refine ⟨a2, L1 ++ L2, by rw [b2, b1, List.append_assoc], ?_⟩
      intro x hx1
      rw [seenFiles_append] at hx1
      rcases List.mem_append.1 hx1 with h | h
      · exact c1 x h
      · exact c2 x h)
    ms b f w
    (fun m hm g v hg => by
      obtain ⟨h1, _, _, _⟩ := invoke_spec m g v
      refine ⟨by rw [invoke_fileExists]; exact hkeep m hm g v hg, _, h1, ?_⟩
      intro x hx1
      simp [Event.seenFile] at hx1
      rw [hx1]
      exact hg)
    (fun m _ s g v hg => by
      obtain ⟨h1, h2, _, _⟩ := setModuleStatus_spec env m s g v
      rw [h2]
      exact ⟨hg, _, h1, by simp [Event.seenFile]⟩)
  exact h hx

/-- C6: for a ready file that is not excluded and a non-empty module list: when the pipeline
has an executable module and the file is not on disk, a run that returns normally calls
`saveFile` exactly once, as its third call after the exclusion check and the in-progress
status write and before every module call; the first module is given the file on disk; if
no module removes a file that is on disk, every module is given the file on disk and
`deleteFile` is called for a file that is not carved or derived; and a file that is not
carved or derived is not on disk after the run. When the pipeline has no executable module
or the file is already on disk, `run` never calls `saveFile`, on any path. -/
theorem run_materializes_before_modules (p : TskFileAnalysisPipeline) (env : Services)
    (f : TskFile) (w : World) :
    (p.m_modules ≠ [] → f.status = FILE_STATUS.READY_FOR_ANALYSIS →
      env.excludeFile f w = .ok false →
      p.m_hasExeModule = true → f.fileExists = false →
      (p.run env (some f) w).raised = none →
      ((p.run env (some f) w).newEvents w).take 3
        = [Event.excludeFile f.id, Event.setStatus f.id FILE_STATUS.ANALYSIS_IN_PROGRESS,
            Event.saveFile f.id] ∧
      (∀ ev ∈ ((p.run env (some f) w).newEvents w).drop 3, ∀ i, ev ≠ Event.saveFile i) ∧
      (seenFiles ((p.run env (some f) w).newEvents w)).head?
        = some { f with status := FILE_STATUS.ANALYSIS_IN_PROGRESS, fileExists := true } ∧
      ((∀ m ∈ p.m_modules, ∀ g v, g.fileExists = true → (m.run g v).fileExists = true) →
        (∀ g ∈ seenFiles ((p.run env (some f) w).newEvents w), g.fileExists = true) ∧
        (f.typeId ≠ FILE_TYPES.CARVED → f.typeId ≠ FILE_TYPES.DERIVED →
          Event.deleteFile f.id ∈ (p.run env (some f) w).newEvents w)) ∧
      (f.typeId ≠ FILE_TYPES.CARVED → f.typeId ≠ FILE_TYPES.DERIVED →
        (p.run env (some f) w).file.map TskFile.fileExists = some false)) ∧
    ((p.m_hasExeModule = false ∨ f.fileExists = true) →
      ∀ ev ∈ (p.run env (some f) w).newEvents w, ∀ i, ev ≠ Event.saveFile i) := by
  constructor
  · intro hne hready hexcl hflag hnot hraised
    obtain ⟨b, f1, w1, hloop, hrun⟩ := run_normal p env f w hne hready hexcl hraised
    obtain ⟨hid, hty, L, R, hL, _, _, hevs⟩ :=
      moduleLoop_tracks env p.m_modules false (entryFile p f) (entryWorld p f w)
    rw [hloop] at hid hty hL
    simp only [Step.file, Step.world] at hid hty hL
    have hentry : entryEvents p f
        = [Event.excludeFile f.id, Event.setStatus f.id FILE_STATUS.ANALYSIS_IN_PROGRESS,
            Event.saveFile f.id] := by
      simp [entryEvents, hflag, hnot]
    have hnew : (p.run env (some f) w).newEvents w
        = [Event.excludeFile f.id, Event.setStatus f.id FILE_STATUS.ANALYSIS_IN_PROGRESS,
            Event.saveFile f.id] ++ (L ++ exitEvents b f1) := by
      rw [hrun]
      simp [Outcome.newEvents, exitWorld, hL, entryWorld, hentry]
    have hseen : seenFiles ((p.run env (some f) w).newEvents w) = seenFiles L := by
      rw [hnew]
      simp [Event.seenFile, seenFiles_exitEvents]
    have hfirst : (seenFiles L).head? = some (entryFile p f) := by
      cases hms : p.m_modules with
      | nil => exact absurd hms hne
      | cons m rest =>
        obtain ⟨r, L1, h1⟩ := moduleLoop_first_call env m rest false (entryFile p f)
          (entryWorld p f w)
        rw [← hms, hloop] at h1
        simp only [Step.world] at h1
        rw [hL] at h1
        have := List.append_cancel_left h1
        rw [this]
        simp [Event.seenFile]
    have hid1 : f1.id = f.id := by rw [hid]; rfl
    have hty1 : f1.typeId = f.typeId := by rw [hty]; rfl
    refine ⟨by rw [hnew]; rfl, ?_, ?_, ?_, ?_⟩
    · intro ev hev i
      rw [hnew] at hev
      simp only [List.drop_left'
        (show [Event.excludeFile f.id, Event.setStatus f.id FILE_STATUS.ANALYSIS_IN_PROGRESS,
          Event.saveFile f.id].length = 3 from rfl)] at hev
      rcases List.mem_append.1 hev with h | h
      · rcases hevs ev h with ⟨_, _, _, h1⟩ | ⟨_, _, _, h1⟩ <;> simp [h1]
      · exact exitEvents_not_saveFile b f1 ev h i
    · rw [hseen, hfirst]
      simp [entryFile, hflag, hnot]
    · intro hkeep
      obtain ⟨hx1, L2, hL2, hs2⟩ := moduleLoop_seen_on_disk env p.m_modules false (entryFile p f)
        (entryWorld p f w) hkeep (by simp [entryFile, hflag])
      rw [hloop] at hx1 hL2
      simp only [Step.file, Step.world] at hx1 hL2
      rw [hL] at hL2
      have hLL := List.append_cancel_left hL2
      constructor
      · rw [hseen, hLL]
        exact hs2
      · intro hc hd
        rw [hnew]
        simp [exitEvents, hty1, hc, hd, hx1, hid1]
    · intro hc hd
      rw [hrun]
      simp [exitFile, hty1, hc, hd]
  · intro hcase
    by_cases hne : p.m_modules = []
    · simp [TskFileAnalysisPipeline.run, hne, Outcome.newEvents]
    obtain ⟨_, _, _, hlog, _, _⟩ := run_spec p env f w hne
    have h := tryBlock_preserves p env f w
      (R := fun _ v _ v1 => ∃ L, v1.log = v.log ++ L ∧ ∀ ev ∈ L, ∀ i, ev ≠ Event.saveFile i)
      (fun g v => ⟨[], by simp⟩)
      (fun g v g1 v1 g2 v2 h1 h2 => by
        obtain ⟨L1, hL1, hn1⟩ := h1
        obtain ⟨L2, hL2, hn2⟩ := h2
        refine ⟨L1 ++ L2, by rw [hL2, hL1, List.append_assoc], ?_⟩
        intro ev hev
        rcases List.mem_append.1 hev with h | h
        · exact hn1 ev h
        · exact hn2 ev h)
      (fun g v => by
        obtain ⟨_, h2⟩ := excludeFile_spec env g v
        rw [h2]
        exact ⟨[Event.excludeFile g.id], rfl, by simp⟩)
      (fun s g v => ⟨_, (setStatus_spec env s g v).1, by simp⟩)
      (fun g v hflag _ hnot => by
        rcases hcase with h | h
        · rw [h] at hflag
          contradiction
        · rw [h] at hnot
          contradiction)
      (fun m _ g v => ⟨_, (invoke_spec m g v).1, by simp⟩)
      (fun m _ s g v => ⟨_, (setModuleStatus_spec env m s g v).1, by simp⟩)
      (fun g v _ _ _ => ⟨_, (deleteFile_spec env g v).1, by simp⟩)
    obtain ⟨L, hL, hn⟩ := h
    intro ev hev i
    rw [Outcome.newEvents, hlog, hL, List.append_assoc, List.drop_left] at hev
    rcases List.mem_append.1 hev with h1 | h1
    · exact hn ev h1 i
    · cases hthrown : (tryBlock p env f w).thrown <;>
        simp [hthrown, catchEvents] at h1
      rcases h1 with h1 | h1 <;> simp [h1]

/-- Witness for C6: a ready file that is not on disk, in a pipeline with an executable
module; and a pipeline without executable module. -/
theorem run_materializes_before_modules_witness :
    (((pipelineOkFailOk.run quietServices (some readyFile) freshWorld).newEvents freshWorld).take 3
        = [Event.excludeFile 7, Event.setStatus 7 FILE_STATUS.ANALYSIS_IN_PROGRESS,
            Event.saveFile 7] ∧
      (seenFiles ((pipelineOkFailOk.run quietServices (some readyFile) freshWorld).newEvents
        freshWorld)).head?
        = some { readyFile with status := FILE_STATUS.ANALYSIS_IN_PROGRESS, fileExists := true } ∧
      (pipelineOkFailOk.run quietServices (some readyFile) freshWorld).file.map TskFile.fileExists
        = some false) ∧
    (∀ ev ∈ (pipelineDisposing.run quietServices (some readyFile) freshWorld).newEvents freshWorld,
      ∀ i, ev ≠ Event.saveFile i) := by
  have h := (run_materializes_before_modules pipelineOkFailOk quietServices readyFile
    freshWorld).1 (by simp [pipelineOkFailOk]) rfl rfl rfl rfl (by decide)
  exact ⟨⟨h.1, h.2.2.1, h.2.2.2.2 (by decide) (by decide)⟩,
    (run_materializes_before_modules pipelineDisposing quietServices readyFile freshWorld).2
      (Or.inl rfl)⟩

/-- C7, as stated, fails: a file that is not carved or derived and that `run` put on disk
is still on disk when `run` leaves by the exception of a module; the handler makes no call
of `deleteFile`. -/
theorem run_leaves_materialized_file_when_module_throws :
    readyFile.typeId ≠ FILE_TYPES.CARVED ∧ readyFile.typeId ≠ FILE_TYPES.DERIVED ∧
    readyFile.fileExists = false ∧
    Event.saveFile 7 ∈ (pipelineOkThrowOk.run quietServices (some readyFile) freshWorld).newEvents
      freshWorld ∧
    (pipelineOkThrowOk.run quietServices (some readyFile) freshWorld).raised
      = some (Fault.exception 42) ∧
    Event.deleteFile 7 ∉ (pipelineOkThrowOk.run quietServices (some readyFile) freshWorld).newEvents
      freshWorld ∧
    (pipelineOkThrowOk.run quietServices (some readyFile) freshWorld).file.map TskFile.fileExists
      = some true := by
  decide

/-- C7, amended: for every run in which `run` called `saveFile` for a file that is not
carved or derived and which returns normally, also when a module returned `STOP`, the file
is not on disk when `run` returns. -/
theorem run_releases_materialized_file_on_return (p : TskFileAnalysisPipeline) (env : Services)
    (f : TskFile) (w : World)
    (hne : p.m_modules ≠ [])
    (hcarved : f.typeId ≠ FILE_TYPES.CARVED) (hderived : f.typeId ≠ FILE_TYPES.DERIVED)
    (hsaved : Event.saveFile f.id ∈ (p.run env (some f) w).newEvents w)
    (hreturn : (p.run env (some f) w).raised = none) :
    (p.run env (some f) w).file.map TskFile.fileExists = some false := by
  have hthrown : (tryBlock p env f w).thrown = none := by
    rw [← (run_spec p env f w hne).1]
    exact hreturn
  have hrun := run_some p env f w hne
  cases hexcl : env.excludeFile f w with
  | error e => simp [tryBlock, excludeFile, hexcl, Step.thrown] at hthrown
  | ok excluded =>
    cases excluded with
    | true =>
      have ht : tryBlock p env f w
          = setStatus env FILE_STATUS.ANALYSIS_SKIPPED f (w.emit (Event.excludeFile f.id)) := by
        simp [tryBlock, excludeFile, hexcl]
      rw [ht] at hthrown
      rw [ht, setStatus_done env _ _ _ hthrown] at hrun
      rw [hrun] at hsaved
      simp [Outcome.newEvents, World.emit, World.updateFileStatus] at hsaved
    | false =>
      by_cases hready : f.status = FILE_STATUS.READY_FOR_ANALYSIS
      · obtain ⟨b, f1, w1, hloop, hrun1⟩ := run_normal p env f w hne hready hexcl hreturn
        obtain ⟨_, hty, _⟩ :=
          moduleLoop_tracks env p.m_modules false (entryFile p f) (entryWorld p f w)
        rw [hloop] at hty
        have hty1 : f1.typeId = f.typeId := hty
        rw [hrun1]
        simp [exitFile, hty1, hcarved, hderived]
      · have ht : tryBlock p env f w = .done () f (w.emit (Event.excludeFile f.id)) := by
          simp [tryBlock, excludeFile, hexcl, hready]
        rw [ht] at hrun
        rw [hrun] at hsaved
        simp [Outcome.newEvents, World.emit] at hsaved

/-- Witness for C7, amended: the pipeline `[A(Ok), B(Stop), C(Ok)]` on a ready file that
`run` put on disk. -/
theorem run_releases_materialized_file_on_return_witness :
    (pipelineOkStopOk.run quietServices (some readyFile) freshWorld).file.map TskFile.fileExists
      = some false :=
  run_releases_materialized_file_on_return pipelineOkStopOk quietServices readyFile freshWorld
    (by simp [pipelineOkStopOk]) (by decide) (by decide) (by decide) (by decide)

/-- C11: for a non-empty module list, `run` on a null handle throws the null pointer
exception and changes nothing in the database: the persisted statuses and the module
records are as before, and its only call is the error log entry, so there is no status
write, no forced `ANALYSIS_FAILED` commit, no exclusion check and no module call. The same
holds for `run` on a file identifier whose lookup returns a null handle, after the lookup. -/
theorem run_null_handle_throws_without_mutation (p : TskFileAnalysisPipeline) (env : Services)
    (w : World) (hne : p.m_modules ≠ []) :
    (p.run env none w).raised = some Fault.TskNullPointerException ∧
    (p.run env none w).file = none ∧
    (p.run env none w).world.fileStatus = w.fileStatus ∧
    (p.run env none w).world.moduleStatus = w.moduleStatus ∧
    (p.run env none w).newEvents w = [Event.logNullPointer] ∧
    (∀ fileId, env.getFile fileId w = .ok none →
      (p.runId env fileId w).raised = some Fault.TskNullPointerException ∧
      (p.runId env fileId w).world.fileStatus = w.fileStatus ∧
      (p.runId env fileId w).world.moduleStatus = w.moduleStatus ∧
      (p.runId env fileId w).newEvents w = [Event.getFile fileId, Event.logNullPointer]) := by
  have hlen : p.m_modules.length ≠ 0 := by simpa using hne
  refine ⟨?_, ?_, ?_, ?_, ?_, ?_⟩ <;>
    simp [TskFileAnalysisPipeline.run, TskFileAnalysisPipeline.runId, hlen, World.emit,
      Outcome.newEvents]
  intro fileId hget
  simp [hget, World.emit]

/-- Witness for C11: the pipeline `[A(Ok), B(Fail), C(Ok)]` on a null handle, and on a file
identifier whose lookup returns a null handle. -/
theorem run_null_handle_throws_without_mutation_witness :
    (pipelineOkFailOk.run quietServices none freshWorld).raised
      = some Fault.TskNullPointerException ∧
    (pipelineOkFailOk.run quietServices none freshWorld).world.moduleStatus = [] ∧
    (pipelineOkFailOk.run quietServices none freshWorld).newEvents freshWorld
      = [Event.logNullPointer] ∧
    (pipelineOkFailOk.runId nullLookup 7 freshWorld).newEvents freshWorld
      = [Event.getFile 7, Event.logNullPointer] := by
  have h := run_null_handle_throws_without_mutation pipelineOkFailOk quietServices freshWorld
    (by simp [pipelineOkFailOk])
  have h2 := run_null_handle_throws_without_mutation pipelineOkFailOk nullLookup freshWorld
    (by simp [pipelineOkFailOk])
  exact ⟨h.1, h.2.2.2.1, h.2.2.2.2.1, (h2.2.2.2.2.2 7 rfl).2.2.2⟩

/-- C12, as stated, fails: `run` on a null handle throws the null pointer exception to the
caller and no status is committed: the persisted status of the file is still
`READY_FOR_ANALYSIS` and the only call is the error log entry. -/
theorem run_null_handle_commits_no_status :
    (pipelineOkFailOk.runId nullLookup 7 freshWorld).raised
      = some Fault.TskNullPointerException ∧
    (pipelineOkFailOk.runId nullLookup 7 freshWorld).world.fileStatus 7
      = FILE_STATUS.READY_FOR_ANALYSIS ∧
    (pipelineOkFailOk.runId nullLookup 7 freshWorld).newEvents freshWorld
      = [Event.getFile 7, Event.logNullPointer] ∧
    (pipelineOkFailOk.run quietServices none freshWorld).raised
      = some Fault.TskNullPointerException ∧
    (pipelineOkFailOk.run quietServices none freshWorld).newEvents freshWorld
      = [Event.logNullPointer] := by
  decide

/-- C12, amended: whenever `run` on a handle that is not null throws an exception `e` to the
caller, the persisted status of the file is `ANALYSIS_FAILED`, and the last two calls of
`run` before it throws are the error log entry for `e` and the commit of that status. -/
theorem run_raise_on_handle_commits_failed (p : TskFileAnalysisPipeline) (env : Services)
    (f : TskFile) (w : World) (e : Fault)
    (hraise : (p.run env (some f) w).raised = some e) :
    (p.run env (some f) w).world.fileStatus f.id = FILE_STATUS.ANALYSIS_FAILED ∧
    ∃ L, (p.run env (some f) w).newEvents w
      = L ++ [Event.logError f.id e, Event.updateFileStatus f.id FILE_STATUS.ANALYSIS_FAILED] := by
  by_cases hne : p.m_modules = []
  · simp [TskFileAnalysisPipeline.run, hne] at hraise
  obtain ⟨hraised, _, _, hlog, _, hfs⟩ := run_spec p env f w hne
  rw [hraised] at hraise
  obtain ⟨hid, _, L, _, hL, _, _⟩ := tryBlock_follows p env f w
  constructor
  · rw [hfs (by simp [hraise]), hid]
    simp
  · refine ⟨L, ?_⟩
    rw [Outcome.newEvents, hlog, hL, hraise, hid, List.append_assoc, List.drop_left]
    rfl

/-- Witness for C12, amended: a module that throws. -/
theorem run_raise_on_handle_commits_failed_witness :
    (pipelineOkThrowOk.run quietServices (some readyFile) freshWorld).world.fileStatus 7
      = FILE_STATUS.ANALYSIS_FAILED ∧
    ((pipelineOkThrowOk.run quietServices (some readyFile) freshWorld).newEvents freshWorld).getLast?
      = some (Event.updateFileStatus 7 FILE_STATUS.ANALYSIS_FAILED) := by
  have h := run_raise_on_handle_commits_failed pipelineOkThrowOk quietServices readyFile
    freshWorld (Fault.exception 42) (by decide)
  exact ⟨h.1, by decide⟩

theorem count_deleteFile_loop_events (i : Nat) (L : List Event)
    (h : ∀ ev ∈ L, (∃ j g r, ev = Event.moduleRun j g r) ∨ ∃ j k s, ev = Event.setModuleStatus j k s) :
    L.count (Event.deleteFile i) = 0 := by
  rw [List.count_eq_zero]
  intro hmem
  rcases h _ hmem with ⟨_, _, _, h1⟩ | ⟨_, _, _, h1⟩ <;> simp at h1

theorem count_deleteFile_entryEvents (p : TskFileAnalysisPipeline) (f : TskFile) (i : Nat) :
    (entryEvents p f).count (Event.deleteFile i) = 0 := by
  unfold entryEvents
  split <;> simp [List.count_cons]

/-- C13, as stated, fails: with an empty module list `run` returns at once, without a fault,
and a ready file of the file system that is not excluded and is on disk is still on disk;
`run` makes no call, so no `deleteFile`. -/
theorem run_empty_pipeline_leaves_file_on_disk :
    storedFile.status = FILE_STATUS.READY_FOR_ANALYSIS ∧
    storedFile.typeId ≠ FILE_TYPES.CARVED ∧ storedFile.typeId ≠ FILE_TYPES.DERIVED ∧
    (pipelineEmpty.run quietServices (some storedFile) freshWorld).raised = none ∧
    (pipelineEmpty.run quietServices (some storedFile) freshWorld).file.map TskFile.fileExists
      = some true ∧
    (pipelineEmpty.run quietServices (some storedFile) freshWorld).newEvents freshWorld = [] := by
  decide

/-- C13, amended: for a non-empty module list and a ready file that is not excluded and whose
type is neither `CARVED` nor `DERIVED`, after a run that returns normally, also when a
module returned `STOP`, the file is not on disk; `deleteFile` is called once for the file if
it is on disk at the end of the module loop and not at all otherwise, whether `run` put the
file on disk itself or not; and no other file is deleted. -/
theorem run_returns_with_file_off_disk (p : TskFileAnalysisPipeline) (env : Services)
    (f : TskFile) (w : World)
    (hne : p.m_modules ≠ [])
    (hready : f.status = FILE_STATUS.READY_FOR_ANALYSIS)
    (hexcl : env.excludeFile f w = .ok false)
    (hcarved : f.typeId ≠ FILE_TYPES.CARVED) (hderived : f.typeId ≠ FILE_TYPES.DERIVED)
    (hreturn : (p.run env (some f) w).raised = none) :
    (p.run env (some f) w).file.map TskFile.fileExists = some false ∧
    ((p.run env (some f) w).newEvents w).count (Event.deleteFile f.id)
      = (if (moduleLoop env p.m_modules false (entryFile p f) (entryWorld p f w)).file.fileExists
          then 1 else 0) ∧
    (∀ i, Event.deleteFile i ∈ (p.run env (some f) w).newEvents w → i = f.id) := by
  obtain ⟨b, f1, w1, hloop, hrun⟩ := run_normal p env f w hne hready hexcl hreturn
  obtain ⟨hid, hty, L, R, hL, _, _, hevs⟩ :=
    moduleLoop_tracks env p.m_modules false (entryFile p f) (entryWorld p f w)
  rw [hloop] at hid hty hL
  simp only [Step.file, Step.world] at hid hty hL
  have hid1 : f1.id = f.id := by rw [hid]; rfl
  have hty1 : f1.typeId = f.typeId := by rw [hty]; rfl
  have hnew : (p.run env (some f) w).newEvents w = entryEvents p f ++ (L ++ exitEvents b f1) := by
    rw [hrun]
    simp [Outcome.newEvents, exitWorld, hL, entryWorld]
  refine ⟨by rw [hrun]; simp [exitFile, hty1, hcarved, hderived], ?_, ?_⟩
  · rw [hnew, hloop]
    simp only [List.count_append, count_deleteFile_entryEvents,
      count_deleteFile_loop_events _ L hevs, Step.file, Nat.zero_add]
    unfold exitEvents
    by_cases hx : f1.fileExists = true <;>
      by_cases hst : f1.status = FILE_STATUS.ANALYSIS_IN_PROGRESS <;>
      simp [hx, hst, hty1, hcarved, hderived, hid1, List.count_cons]
  · intro i hmem
    rw [hnew] at hmem
    rcases List.mem_append.1 hmem with h | h
    · have := count_deleteFile_entryEvents p f i
      rw [List.count_eq_zero] at this
      exact absurd h this
    rcases List.mem_append.1 h with h | h
    · rcases hevs _ h with ⟨_, _, _, h1⟩ | ⟨_, _, _, h1⟩ <;> simp at h1
    · unfold exitEvents at h
      split at h <;> split at h <;> simp at h
      · rw [h, hid1]
      · rw [h, hid1]

/-- Witness for C13, amended: a pipeline of one module, without executable module, on a ready
file that is already on disk: the file is deleted once and is not on disk afterwards. -/
theorem run_returns_with_file_off_disk_witness :
    (pipelineDisposing.run quietServices (some { readyFile with fileExists := true })
      freshWorld).file.map TskFile.fileExists = some false ∧
    ((pipelineDisposing.run quietServices (some { readyFile with fileExists := true })
      freshWorld).newEvents freshWorld).count (Event.deleteFile 7) = 1 := by
  have h := run_returns_with_file_off_disk pipelineDisposing quietServices
    { readyFile with fileExists := true } freshWorld (by simp [pipelineDisposing]) rfl rfl
    (by decide) (by decide) (by decide)
  exact ⟨h.1, h.2.1.trans (by decide)⟩

theorem seenFiles_nil_of_moduleCalls_nil (L : List Event) (h : moduleCalls L = []) :
    seenFiles L = [] := by
  induction L with
  | nil => rfl
  | cons ev L ih =>
    cases ev <;> simp [Event.moduleCall, Event.seenFile] at h ⊢ <;> exact ih h

/-- Either the `try` block makes no module call, or the file is ready and not excluded, the
status write and the materialization did not throw, and the block is the module loop from
the entry state followed by the cleanup and the final status write. -/
theorem tryBlock_quiet_or_loop (p : TskFileAnalysisPipeline) (env : Services) (f : TskFile)
    (w : World) :
    (∃ L, (tryBlock p env f w).world.log = w.log ++ L ∧ moduleCalls L = []) ∨
    (f.status = FILE_STATUS.READY_FOR_ANALYSIS ∧ env.excludeFile f w = .ok false ∧
      tryBlock p env f w =
        (moduleLoop env p.m_modules false (entryFile p f) (entryWorld p f w)).andThen
          fun b f w => (cleanup env f w).andThen fun _ f w => finalStatus env b f w) := by
  cases hexcl : env.excludeFile f w with
  | error e =>
    left
    exact ⟨[Event.excludeFile f.id],
      by simp [tryBlock, excludeFile, hexcl, Step.world, World.emit], by simp [Event.moduleCall]⟩
  | ok excluded =>
    cases excluded with
    | true =>
      left
      have ht : tryBlock p env f w
          = setStatus env FILE_STATUS.ANALYSIS_SKIPPED f (w.emit (Event.excludeFile f.id)) := by
        simp [tryBlock, excludeFile, hexcl]
      obtain ⟨h1, _⟩ := setStatus_spec env FILE_STATUS.ANALYSIS_SKIPPED f
        (w.emit (Event.excludeFile f.id))
      exact ⟨[Event.excludeFile f.id, Event.setStatus f.id FILE_STATUS.ANALYSIS_SKIPPED],
        by rw [ht, h1]; simp [World.emit], by simp [Event.moduleCall]⟩
    | false =>
      by_cases hready : f.status = FILE_STATUS.READY_FOR_ANALYSIS
      · have ht : tryBlock p env f w
            = (setStatus env FILE_STATUS.ANALYSIS_IN_PROGRESS f
                (w.emit (Event.excludeFile f.id))).andThen fun _ f w =>
              (materialize p env f w).andThen fun _ f w =>
              (moduleLoop env p.m_modules false f w).andThen fun b f w =>
              (cleanup env f w).andThen fun _ f w => finalStatus env b f w := by
          simp [tryBlock, excludeFile, hexcl, hready]
        obtain ⟨hs1, _⟩ := setStatus_spec env FILE_STATUS.ANALYSIS_IN_PROGRESS f
          (w.emit (Event.excludeFile f.id))
        cases hs : setStatus env FILE_STATUS.ANALYSIS_IN_PROGRESS f
            (w.emit (Event.excludeFile f.id)) with
        | threw e f1 w1 =>
          left
          rw [hs] at hs1
          rw [ht, hs]
          exact ⟨[Event.excludeFile f.id, Event.setStatus f.id FILE_STATUS.ANALYSIS_IN_PROGRESS],
            by simpa [Step.world, World.emit] using hs1, by simp [Event.moduleCall]⟩
        | done u f1 w1 =>
          have hd := setStatus_done env FILE_STATUS.ANALYSIS_IN_PROGRESS f
            (w.emit (Event.excludeFile f.id)) (by rw [hs]; rfl)
          rw [hs] at hd
          injection hd with _ hf hw
          subst hf hw
          rw [hs] at ht
          simp only [andThen_done] at ht
          cases hm : materialize p env { f with status := FILE_STATUS.ANALYSIS_IN_PROGRESS }
              ((w.emit (Event.excludeFile f.id)).emit
                (Event.setStatus f.id FILE_STATUS.ANALYSIS_IN_PROGRESS) |>.updateFileStatus f.id
                  FILE_STATUS.ANALYSIS_IN_PROGRESS) with
          | threw e f2 w2 =>
            left
            rw [hm] at ht
            have hq : (materialize p env { f with status := FILE_STATUS.ANALYSIS_IN_PROGRESS }
              ((w.emit (Event.excludeFile f.id)).emit
                (Event.setStatus f.id FILE_STATUS.ANALYSIS_IN_PROGRESS) |>.updateFileStatus f.id
                  FILE_STATUS.ANALYSIS_IN_PROGRESS)).world.log
                = w.log ++ [Event.excludeFile f.id,
                    Event.setStatus f.id FILE_STATUS.ANALYSIS_IN_PROGRESS, Event.saveFile f.id] := by
              unfold materialize at hm ⊢
              split at hm
              · rw [if_pos (by assumption), (saveFile_spec env _ _).1]
                simp [World.emit, World.updateFileStatus]
              · simp at hm
            rw [hm] at hq
            exact ⟨_, by rw [ht]; simpa [Step.world] using hq, by simp [Event.moduleCall]⟩
          | done u2 f2 w2 =>
            right
            have hd := materialize_done p env _ _ (by rw [hm]; rfl)
            rw [hm] at hd
            injection hd with _ hf hw
            subst hf hw
            refine ⟨hready, rfl, ?_⟩
            rw [ht, hm]
            simp [entryFile, entryWorld, entryEvents, World.emit, World.updateFileStatus]
      · left
        exact ⟨[Event.excludeFile f.id],
          by simp [tryBlock, excludeFile, hexcl, hready, Step.world, World.emit],
          by simp [Event.moduleCall]⟩

/-- What follows the module loop adds no module call to the log. -/
theorem exit_after_loop_log (env : Services) (r : Step Bool) :
    ∃ X, (r.andThen fun b f w => (cleanup env f w).andThen
        fun _ f w => finalStatus env b f w).world.log = r.world.log ++ X ∧
      moduleCalls X = [] := by
  cases r with
  | threw e f w => exact ⟨[], by simp [Step.world], rfl⟩
  | done b f w =>
    obtain ⟨_, _, _, X, hX, hc⟩ := exit_quiet env b f w
    exact ⟨X, hX, hc⟩

/-- C14: in every run in which at least one module is called, the status of the file at the
gate was `READY_FOR_ANALYSIS` and the file was not excluded; the first two calls of `run`
are the exclusion check and the status write of `ANALYSIS_IN_PROGRESS`, so this write comes
before `saveFile` and before every module call; and the first module called is given the
handle with the status `ANALYSIS_IN_PROGRESS`. -/
theorem run_sets_in_progress_before_first_module (p : TskFileAnalysisPipeline) (env : Services)
    (f : TskFile) (w : World)
    (hcalled : moduleCalls ((p.run env (some f) w).newEvents w) ≠ []) :
    f.status = FILE_STATUS.READY_FOR_ANALYSIS ∧
    env.excludeFile f w = .ok false ∧
    ((p.run env (some f) w).newEvents w).take 2
      = [Event.excludeFile f.id, Event.setStatus f.id FILE_STATUS.ANALYSIS_IN_PROGRESS] ∧
    (seenFiles ((p.run env (some f) w).newEvents w)).head? = some (entryFile p f) ∧
    (seenFiles ((p.run env (some f) w).newEvents w)).head?.map TskFile.status
      = some FILE_STATUS.ANALYSIS_IN_PROGRESS := by
  by_cases hne : p.m_modules = []
  · simp [TskFileAnalysisPipeline.run, hne, Outcome.newEvents] at hcalled
  obtain ⟨_, _, _, hlog, _, _⟩ := run_spec p env f w hne
  have hcatch : moduleCalls (catchEvents (tryBlock p env f w).file.id (tryBlock p env f w).thrown)
      = [] := by
    cases (tryBlock p env f w).thrown <;> simp [catchEvents, Event.moduleCall]
  rcases tryBlock_quiet_or_loop p env f w with ⟨L, hL, hq⟩ | ⟨hready, hexcl, ht⟩
  · exfalso
    apply hcalled
    rw [Outcome.newEvents, hlog, hL, List.append_assoc, List.drop_left]
    simp [hq, hcatch]
  · obtain ⟨X, hX, hXc⟩ := exit_after_loop_log env
      (moduleLoop env p.m_modules false (entryFile p f) (entryWorld p f w))
    rw [← ht] at hX
    cases hms : p.m_modules with
    | nil => exact absurd hms hne
    | cons m rest =>
      obtain ⟨r, L1, h1⟩ := moduleLoop_first_call env m rest false (entryFile p f)
        (entryWorld p f w)
      rw [← hms] at h1
      have hnew : (p.run env (some f) w).newEvents w
          = entryEvents p f ++ (Event.moduleRun m.moduleId (entryFile p f) r :: L1 ++ X
            ++ catchEvents (tryBlock p env f w).file.id (tryBlock p env f w).thrown) := by
        rw [Outcome.newEvents, hlog, hX, h1]
        simp [entryWorld, List.append_assoc]
      have hseen : seenFiles (entryEvents p f) = [] := seenFiles_entryEvents p f
      refine ⟨hready, hexcl, ?_, ?_, ?_⟩
      · rw [hnew]
        unfold entryEvents
        simp
      · rw [hnew]
        simp [hseen, Event.seenFile]
      · rw [hnew]
        simp [hseen, Event.seenFile, entryFile]

/-- Witness for C14: in the pipeline `[A(Ok), B(throws), C(Ok)]` on a ready file the first
module is given the status `ANALYSIS_IN_PROGRESS`, after the status write. -/
theorem run_sets_in_progress_before_first_module_witness :
    ((pipelineOkThrowOk.run quietServices (some readyFile) freshWorld).newEvents freshWorld).take 2
      = [Event.excludeFile 7, Event.setStatus 7 FILE_STATUS.ANALYSIS_IN_PROGRESS] ∧
    (seenFiles ((pipelineOkThrowOk.run quietServices (some readyFile) freshWorld).newEvents
      freshWorld)).head?.map TskFile.status = some FILE_STATUS.ANALYSIS_IN_PROGRESS := by
  have h := run_sets_in_progress_before_first_module pipelineOkThrowOk quietServices readyFile
    freshWorld (by decide)
  exact ⟨h.2.2.1, h.2.2.2.2⟩

theorem invoke_status (m : TskModule) (f : TskFile) (w : World) :
    (m.invoke f w).file.status = ((m.run f w).newStatus).getD f.status ∧
    ((m.run f w).newStatus = none → (m.invoke f w).world.fileStatus = w.fileStatus) ∧
    (∀ s, (m.run f w).newStatus = some s →
      (m.invoke f w).world.fileStatus = Function.update w.fileStatus f.id s) := by
  unfold TskModule.invoke
  cases hr : (m.run f w).result <;> cases hs : (m.run f w).newStatus <;>
    simp [hr, hs, Step.world, Step.file, World.emit, World.updateFileStatus]

theorem setModuleStatus_fileStatus (env : Services) (m : TskModule) (s : Status) (f : TskFile)
    (w : World) : (setModuleStatus env m s f w).world.fileStatus = w.fileStatus := by
  unfold setModuleStatus
  cases env.setModuleStatus f.id m.moduleId s w <;>
    simp [Step.world, World.emit, World.setModuleStatus]

/-- The persisted status of the file is the status of the handle at the end of the module
loop, if it is at its start. -/
theorem moduleLoop_status_persisted (env : Services) (ms : List TskModule) (b : Bool)
    (f : TskFile) (w : World) (h : w.fileStatus f.id = f.status) :
    (moduleLoop env ms b f w).world.fileStatus (moduleLoop env ms b f w).file.id
      = (moduleLoop env ms b f w).file.status := by
  have hp := moduleLoop_preserves env
    (R := fun g v g1 v1 => g1.id = g.id ∧ (v.fileStatus g.id = g.status →
      v1.fileStatus g1.id = g1.status))
    (fun g v => ⟨rfl, fun h => h⟩)
    (fun g v g1 v1 g2 v2 h1 h2 => ⟨h2.1.trans h1.1, fun h => h2.2 (h1.2 h)⟩)
    ms b f w
    (fun m _ g v => by
      obtain ⟨_, _, hid, _⟩ := invoke_spec m g v
      obtain ⟨hst, hnone, hsome⟩ := invoke_status m g v
      refine ⟨hid, fun h => ?_⟩
      rw [hid, hst]
      cases hs : (m.run g v).newStatus with
      | none => rw [hnone hs]; simpa using h
      | some s => rw [hsome s hs]; simp)
    (fun m _ s g v => by
      obtain ⟨_, hf, _, _⟩ := setModuleStatus_spec env m s g v
      rw [hf, setModuleStatus_fileStatus]
      exact ⟨rfl, fun h => h⟩)
  exact hp.2 h

/-- C16: for a file whose status is `READY_FOR_ANALYSIS` and a non-empty module list, whatever
the modules return and whatever statuses they set: when `run` returns normally the status of
the handle is not `ANALYSIS_IN_PROGRESS`, and the persisted status of the file is the status
of the handle. An excluded file ends `ANALYSIS_SKIPPED`; for a file that is not excluded, a
status equal to `ANALYSIS_IN_PROGRESS` at the end of the module loop is replaced by
`ANALYSIS_FAILED` or `ANALYSIS_COMPLETE`, and any other status at the end of the loop is
kept. -/
theorem run_never_returns_in_progress (p : TskFileAnalysisPipeline) (env : Services)
    (f : TskFile) (w : World)
    (hne : p.m_modules ≠ [])
    (hready : f.status = FILE_STATUS.READY_FOR_ANALYSIS)
    (hreturn : (p.run env (some f) w).raised = none) :
    (∃ s, (p.run env (some f) w).status = some s ∧ s ≠ FILE_STATUS.ANALYSIS_IN_PROGRESS ∧
      (p.run env (some f) w).world.fileStatus f.id = s) ∧
    (env.excludeFile f w = .ok true →
      (p.run env (some f) w).status = some FILE_STATUS.ANALYSIS_SKIPPED) ∧
    (env.excludeFile f w = .ok false →
      ((moduleLoop env p.m_modules false (entryFile p f) (entryWorld p f w)).file.status
          = FILE_STATUS.ANALYSIS_IN_PROGRESS →
        (p.run env (some f) w).status = some FILE_STATUS.ANALYSIS_FAILED ∨
        (p.run env (some f) w).status = some FILE_STATUS.ANALYSIS_COMPLETE) ∧
      ((moduleLoop env p.m_modules false (entryFile p f) (entryWorld p f w)).file.status
          ≠ FILE_STATUS.ANALYSIS_IN_PROGRESS →
        (p.run env (some f) w).status
          = some (moduleLoop env p.m_modules false (entryFile p f) (entryWorld p f w)).file.status)) := by
  have hthrown : (tryBlock p env f w).thrown = none := by
    rw [← (run_spec p env f w hne).1]
    exact hreturn
  have hrun := run_some p env f w hne
  cases hexcl : env.excludeFile f w with
  | error e => simp [tryBlock, excludeFile, hexcl, Step.thrown] at hthrown
  | ok excluded =>
    cases excluded with
    | true =>
      have ht : tryBlock p env f w
          = setStatus env FILE_STATUS.ANALYSIS_SKIPPED f (w.emit (Event.excludeFile f.id)) := by
        simp [tryBlock, excludeFile, hexcl]
      rw [ht] at hthrown
      rw [ht, setStatus_done env _ _ _ hthrown] at hrun
      rw [hrun]
      simp [Outcome.status, World.updateFileStatus, World.emit]
    | false =>
      obtain ⟨b, f1, w1, hloop, hrun1⟩ := run_normal p env f w hne hready hexcl hreturn
      have hpers := moduleLoop_status_persisted env p.m_modules false (entryFile p f)
        (entryWorld p f w) (by simp [entryFile, entryWorld])
      obtain ⟨hid, _⟩ :=
        moduleLoop_tracks env p.m_modules false (entryFile p f) (entryWorld p f w)
      rw [hloop] at hpers hid
      simp only [Step.file, Step.world] at hpers hid
      have hid1 : f1.id = f.id := by rw [hid]; rfl
      rw [hid1] at hpers
      rw [hrun1, hloop]
      simp only [Step.file, Outcome.status, Option.map_some', exitFile, exitWorld]
      by_cases hst : f1.status = FILE_STATUS.ANALYSIS_IN_PROGRESS
      · cases b <;> simp [finalStatusOf, hst] <;> rw [hid1] <;> simp
      · simp [finalStatusOf, hst, hpers]

/-- Witness for C16: the pipeline `[A(Ok), B(Stop), C(Ok)]` on a ready file. -/
theorem run_never_returns_in_progress_witness :
    ∃ s, (pipelineOkStopOk.run quietServices (some readyFile) freshWorld).status = some s ∧
      s ≠ FILE_STATUS.ANALYSIS_IN_PROGRESS ∧
      (pipelineOkStopOk.run quietServices (some readyFile) freshWorld).world.fileStatus
        readyFile.id = s :=
  (run_never_returns_in_progress pipelineOkStopOk quietServices readyFile freshWorld
    (by simp [pipelineOkStopOk]) rfl (by decide)).1

/-- A run on a handle whose status is not `READY_FOR_ANALYSIS`, whatever the services do: no
module call, no module record, no `saveFile` or `deleteFile`; and when it returns normally,
either the file is excluded and its status is `ANALYSIS_SKIPPED`, or nothing has changed. -/
theorem run_not_ready (p : TskFileAnalysisPipeline) (env : Services) (f : TskFile) (w : World)
    (hne : p.m_modules ≠ []) (hstatus : f.status ≠ FILE_STATUS.READY_FOR_ANALYSIS) :
    moduleCalls ((p.run env (some f) w).newEvents w) = [] ∧
    (p.run env (some f) w).world.moduleStatus = w.moduleStatus ∧
    (∀ ev ∈ (p.run env (some f) w).newEvents w, ∀ i,
      ev ≠ Event.saveFile i ∧ ev ≠ Event.deleteFile i) ∧
    (p.run env (some f) w).file.map TskFile.fileExists = some f.fileExists ∧
    ((p.run env (some f) w).raised = none →
      (env.excludeFile f w = .ok true ∧
        (p.run env (some f) w).status = some FILE_STATUS.ANALYSIS_SKIPPED ∧
        (p.run env (some f) w).world.fileStatus
          = Function.update w.fileStatus f.id FILE_STATUS.ANALYSIS_SKIPPED) ∨
      (env.excludeFile f w = .ok false ∧ (p.run env (some f) w).file = some f ∧
        (p.run env (some f) w).world.fileStatus = w.fileStatus)) := by
  rw [run_some p env f w hne]
  cases hexcl : env.excludeFile f w with
  | error e =>
    have ht : tryBlock p env f w = .threw e f (w.emit (Event.excludeFile f.id)) := by
      simp [tryBlock, excludeFile, hexcl]
    rw [ht]
    simp [catchBlock, Outcome.newEvents, World.emit, World.updateFileStatus, Event.moduleCall]
  | ok excluded =>
    cases excluded with
    | true =>
      cases hw : env.setStatus f FILE_STATUS.ANALYSIS_SKIPPED (w.emit (Event.excludeFile f.id)) with
      | none =>
        have ht : tryBlock p env f w
            = .done () { f with status := FILE_STATUS.ANALYSIS_SKIPPED }
              (((w.emit (.excludeFile f.id)).emit
                (.setStatus f.id FILE_STATUS.ANALYSIS_SKIPPED)).updateFileStatus
                  f.id FILE_STATUS.ANALYSIS_SKIPPED) := by
          simp only [tryBlock, excludeFile, hexcl, andThen_done, if_true, setStatus, hw]
        rw [ht]
        simp [Outcome.newEvents, Outcome.status, World.emit, World.updateFileStatus,
          Event.moduleCall]
      | some e =>
        have ht : tryBlock p env f w = .threw e f
            ((w.emit (.excludeFile f.id)).emit (.setStatus f.id FILE_STATUS.ANALYSIS_SKIPPED)) := by
          simp only [tryBlock, excludeFile, hexcl, andThen_done, if_true, setStatus, hw]
        rw [ht]
        simp [catchBlock, Outcome.newEvents, World.emit, World.updateFileStatus, Event.moduleCall]
    | false =>
      have ht : tryBlock p env f w = .done () f (w.emit (Event.excludeFile f.id)) := by
        simp [tryBlock, excludeFile, hexcl, hstatus]
      rw [ht]
      simp [Outcome.newEvents, World.emit, Event.moduleCall]

/-- If no module sets the status `READY_FOR_ANALYSIS`, the status is not
`READY_FOR_ANALYSIS` at the end of the module loop when it is not at its start. -/
theorem moduleLoop_not_ready (env : Services) (ms : List TskModule) (b : Bool) (f : TskFile)
    (w : World)
    (hmods : ∀ m ∈ ms, ∀ g v, (m.run g v).newStatus ≠ some FILE_STATUS.READY_FOR_ANALYSIS)
    (h : f.status ≠ FILE_STATUS.READY_FOR_ANALYSIS) :
    (moduleLoop env ms b f w).file.status ≠ FILE_STATUS.READY_FOR_ANALYSIS := by
  have hp := moduleLoop_preserves env
    (R := fun g _ g1 _ => g.status ≠ FILE_STATUS.READY_FOR_ANALYSIS →
      g1.status ≠ FILE_STATUS.READY_FOR_ANALYSIS)
    (fun g v h => h)
    (fun g v g1 v1 g2 v2 h1 h2 h => h2 (h1 h))
    ms b f w
    (fun m hm g v hg => by
      rw [(invoke_status m g v).1]
      cases hs : (m.run g v).newStatus with
      | none => simpa using hg
      | some s =>
        have := hmods m hm g v
        rw [hs] at this
        simpa using this)
    (fun m _ s g v hg => by
      rw [(setModuleStatus_spec env m s g v).2.1]
      exact hg)
  exact hp h

/-- What a first run that returns normally leaves, when no module sets the status
`READY_FOR_ANALYSIS`: a handle of the same file whose status is not `READY_FOR_ANALYSIS`; the
exclusion check returned; and if it excluded the file, the status is `ANALYSIS_SKIPPED` in
the handle and in the database. -/
theorem first_run_leaves_not_ready (p : TskFileAnalysisPipeline) (env : Services) (f : TskFile)
    (w : World) (hne : p.m_modules ≠ [])
    (hmods : ∀ m ∈ p.m_modules, ∀ g v,
      (m.run g v).newStatus ≠ some FILE_STATUS.READY_FOR_ANALYSIS)
    (hreturn : (p.run env (some f) w).raised = none) :
    ∃ f1, (p.run env (some f) w).file = some f1 ∧ f1.id = f.id ∧
      f1.status ≠ FILE_STATUS.READY_FOR_ANALYSIS ∧
      (env.excludeFile f w = .ok true ∨ env.excludeFile f w = .ok false) ∧
      (env.excludeFile f w = .ok true → f1.status = FILE_STATUS.ANALYSIS_SKIPPED ∧
        (p.run env (some f) w).world.fileStatus f.id = FILE_STATUS.ANALYSIS_SKIPPED) := by
  have hthrown : (tryBlock p env f w).thrown = none := by
    rw [← (run_spec p env f w hne).1]
    exact hreturn
  have hrun := run_some p env f w hne
  cases hexcl : env.excludeFile f w with
  | error e => simp [tryBlock, excludeFile, hexcl, Step.thrown] at hthrown
  | ok excluded =>
    cases excluded with
    | true =>
      have ht : tryBlock p env f w
          = setStatus env FILE_STATUS.ANALYSIS_SKIPPED f (w.emit (Event.excludeFile f.id)) := by
        simp [tryBlock, excludeFile, hexcl]
      rw [ht] at hthrown
      rw [ht, setStatus_done env _ _ _ hthrown] at hrun
      rw [hrun]
      exact ⟨_, rfl, rfl, by simp, Or.inl rfl, fun _ => ⟨rfl, by simp [World.updateFileStatus]⟩⟩
    | false =>
      by_cases hready : f.status = FILE_STATUS.READY_FOR_ANALYSIS
      · obtain ⟨b, f1, w1, hloop, hrun1⟩ := run_normal p env f w hne hready hexcl hreturn
        have hnr := moduleLoop_not_ready env p.m_modules false (entryFile p f) (entryWorld p f w)
          hmods (by simp [entryFile])
        obtain ⟨hid, _⟩ :=
          moduleLoop_tracks env p.m_modules false (entryFile p f) (entryWorld p f w)
        rw [hloop] at hnr hid
        simp only [Step.file] at hnr hid
        rw [hrun1]
        refine ⟨_, rfl, by rw [← show (entryFile p f).id = f.id from rfl, ← hid]; rfl, ?_,
          Or.inr rfl, fun h => by simp at h⟩
        by_cases hst : f1.status = FILE_STATUS.ANALYSIS_IN_PROGRESS
        · cases b <;> simp [exitFile, finalStatusOf, hst]
        · simp [exitFile, finalStatusOf, hst, hnr]
      · have ht : tryBlock p env f w = .done () f (w.emit (Event.excludeFile f.id)) := by
          simp [tryBlock, excludeFile, hexcl, hready]
        rw [ht] at hrun
        rw [hrun]
        exact ⟨f, rfl, rfl, hready, Or.inr rfl, fun h => by simp at h⟩

/-- C15: for a non-empty module list whose modules never set the status
`READY_FOR_ANALYSIS` and every file, after a first run that returns normally a second run on
the same handle makes no module call, writes no module record, makes no `saveFile` or
`deleteFile` call and leaves the file on disk as it was, whatever the services do; and when
the second run returns normally and the exclusion check answers for the file as it did in
the first run, the status of the handle and the persisted status of the file are as the
first run left them. -/
theorem run_twice_is_run_once (p : TskFileAnalysisPipeline) (env : Services)
    (f : TskFile) (w : World)
    (hne : p.m_modules ≠ [])
    (hmods : ∀ m ∈ p.m_modules, ∀ g v,
      (m.run g v).newStatus ≠ some FILE_STATUS.READY_FOR_ANALYSIS)
    (hfirst : (p.run env (some f) w).raised = none) :
    moduleCalls ((secondRun p env f w).newEvents (p.run env (some f) w).world) = [] ∧
    (secondRun p env f w).world.moduleStatus = (p.run env (some f) w).world.moduleStatus ∧
    (∀ ev ∈ (secondRun p env f w).newEvents (p.run env (some f) w).world, ∀ i,
      ev ≠ Event.saveFile i ∧ ev ≠ Event.deleteFile i) ∧
    (secondRun p env f w).file.map TskFile.fileExists
      = (p.run env (some f) w).file.map TskFile.fileExists ∧
    ((secondRun p env f w).raised = none →
      (∀ g, (p.run env (some f) w).file = some g →
        env.excludeFile g (p.run env (some f) w).world = env.excludeFile f w) →
      (secondRun p env f w).status = (p.run env (some f) w).status ∧
      (secondRun p env f w).world.fileStatus f.id
        = (p.run env (some f) w).world.fileStatus f.id) := by
  obtain ⟨f1, hfile, hid, hnr, hcases, hskip⟩ :=
    first_run_leaves_not_ready p env f w hne hmods hfirst
  obtain ⟨h1, h2, h3, h4, h5⟩ := run_not_ready p env f1 (p.run env (some f) w).world hne hnr
  have hst1 : (p.run env (some f) w).status = some f1.status := by
    rw [Outcome.status, hfile]
    rfl
  unfold secondRun
  rw [hfile]
  refine ⟨h1, h2, h3, by rw [h4]; rfl, ?_⟩
  intro hsecond hsame
  have hsame1 := hsame f1 rfl
  rcases h5 hsecond with ⟨hx, hs, hfs⟩ | ⟨hx, hf, hfs⟩
  · rw [hsame1] at hx
    obtain ⟨hs1, hp1⟩ := hskip hx
    refine ⟨by rw [hs, hst1, hs1], ?_⟩
    rw [hfs, hid, hp1]
    simp
  · exact ⟨by rw [Outcome.status, hf, hst1]; rfl, by rw [hfs]⟩

/-- Witness for C15: the pipeline `[A(Ok), B(Fail), C(Ok)]` twice on a ready file: the second
run makes only the exclusion check and leaves `ANALYSIS_FAILED`. -/
theorem run_twice_is_run_once_witness :
    moduleCalls ((secondRun pipelineOkFailOk quietServices readyFile freshWorld).newEvents
      (pipelineOkFailOk.run quietServices (some readyFile) freshWorld).world) = [] ∧
    (secondRun pipelineOkFailOk quietServices readyFile freshWorld).world.moduleStatus
      = [(7, 1, Status.OK), (7, 2, Status.FAIL), (7, 3, Status.OK)] ∧
    (secondRun pipelineOkFailOk quietServices readyFile freshWorld).status
      = some FILE_STATUS.ANALYSIS_FAILED ∧
    (secondRun pipelineOkFailOk quietServices readyFile freshWorld).newEvents
      (pipelineOkFailOk.run quietServices (some readyFile) freshWorld).world
      = [Event.excludeFile 7] := by
  have h := run_twice_is_run_once pipelineOkFailOk quietServices readyFile freshWorld
    (by simp [pipelineOkFailOk])
    (by simp [pipelineOkFailOk, constModule]) (by decide)
  have h2 := h.2.2.2.2 (by decide) (fun _ _ => rfl)
  exact ⟨h.1, h.2.1.trans (by decide), h2.1.trans (by decide), by decide⟩

theorem tryBlock_enters (p : TskFileAnalysisPipeline) (env : Services) (f : TskFile) (w : World)
    (h : Enters p env f w) :
    tryBlock p env f w =
      (moduleLoop env p.m_modules false (entryFile p f) (entryWorld p f w)).andThen
        fun b f w => (cleanup env f w).andThen fun _ f w => finalStatus env b f w := by
  obtain ⟨hexcl, hready, hset, hsave⟩ := h
  simp only [World.emit] at hset
  simp only [saveWorld, World.emit, World.updateFileStatus] at hsave
  cases hx : f.fileExists <;> cases hp : p.m_hasExeModule <;>
    simp [tryBlock, excludeFile, hexcl, hready, setStatus, hset, materialize, saveFile,
      entryFile, entryWorld, entryEvents, World.emit, World.updateFileStatus, hx, hp]
  have := hsave hp hx
  simp [hx] at this
  simp [this]

/-- What `run` leaves when its `try` block throws. -/
theorem faultOutcome_of_threw (p : TskFileAnalysisPipeline) (env : Services) (f : TskFile)
    (w : World) (hne : p.m_modules ≠ []) (e : Fault) (g : TskFile) (v : World)
    (L : List Event) (R : List (Nat × Nat × Status))
    (ht : tryBlock p env f w = .threw e g v) (hid : g.id = f.id)
    (hL : v.log = w.log ++ L) (hR : v.moduleStatus = w.moduleStatus ++ R) :
    FaultOutcome (p.run env (some f) w) w f.id e L R := by
  rw [run_some p env f w hne, ht]
  simp [FaultOutcome, catchBlock, Outcome.newEvents, Outcome.newRecords, World.emit,
    World.updateFileStatus, hid, hL, hR]

theorem invoke_threw (m : TskModule) (g : TskFile) (v : World) (e : Fault)
    (h : (m.run g v).result = .error e) :
    ∃ g1 v1, m.invoke g v = .threw e g1 v1 ∧ g1.id = g.id ∧
      v1.log = v.log ++ [Event.moduleRun m.moduleId g none] ∧
      v1.moduleStatus = v.moduleStatus := by
  unfold TskModule.invoke
  cases hs : (m.run g v).newStatus <;>
    simp only [h, hs, World.emit, World.updateFileStatus, Except.toOption] <;>
    exact ⟨_, _, rfl, rfl, rfl, rfl⟩

theorem invoke_returned (m : TskModule) (g : TskFile) (v : World) (s : Status)
    (h : (m.run g v).result = .ok s) :
    ∃ g1 v1, m.invoke g v = .done s g1 v1 ∧ g1.id = g.id ∧
      v1.log = v.log ++ [Event.moduleRun m.moduleId g (some s)] ∧
      v1.moduleStatus = v.moduleStatus := by
  unfold TskModule.invoke
  cases hs : (m.run g v).newStatus <;>
    simp only [h, hs, World.emit, World.updateFileStatus, Except.toOption] <;>
    exact ⟨_, _, rfl, rfl, rfl, rfl⟩

/-- A loop over `pre` that ends normally without a `STOP` has called and recorded every
module of `pre`, once and in order, and the loop over `pre ++ rest` goes on with `rest` from
the state it ended in. -/
theorem moduleLoop_prefix (env : Services) :
    ∀ (pre : List TskModule) (b : Bool) (g : TskFile) (v : World) (b1 : Bool) (g1 : TskFile)
      (v1 : World),
      moduleLoop env pre b g v = .done b1 g1 v1 →
      ∃ L R, v1.log = v.log ++ L ∧ v1.moduleStatus = v.moduleStatus ++ R ∧ g1.id = g.id ∧
        ((∀ c ∈ moduleCalls L, c.2 ≠ some Status.STOP) →
          (moduleCalls L).map Prod.fst = pre.map TskModule.moduleId ∧
          R.map (fun r => (r.1, r.2.1)) = pre.map (fun m => (g.id, m.moduleId)) ∧
          ∀ rest, moduleLoop env (pre ++ rest) b g v = moduleLoop env rest b1 g1 v1) := by
  intro pre
  induction pre with
  | nil =>
    intro b g v b1 g1 v1 h
    simp only [moduleLoop, Step.done.injEq] at h
    obtain ⟨hb, hg, hv⟩ := h
    subst hb hg hv
    exact ⟨[], [], by simp, by simp, rfl, fun _ => ⟨rfl, rfl, fun _ => rfl⟩⟩
  | cons m pre ih =>
    intro b g v b1 g1 v1 h
    obtain ⟨hlog, hms, hid, _⟩ := invoke_spec m g v
    cases hinv : m.invoke g v with
    | threw e g2 v2 => simp [moduleLoop, hinv] at h
    | done s g2 v2 =>
      rw [hinv] at hlog hms hid
      simp only [Step.world, Step.file, Step.value] at hlog hms hid
      obtain ⟨hlog2, hf2, hok2, _⟩ := setModuleStatus_spec env m s g2 v2
      cases hrec : setModuleStatus env m s g2 v2 with
      | threw e g3 v3 => simp [moduleLoop, hinv, hrec] at h
      | done u g3 v3 =>
        rw [hrec] at hlog2 hf2 hok2
        simp only [Step.world, Step.file, Step.thrown] at hlog2 hf2 hok2
        have hok3 := hok2 trivial
        subst hf2
        by_cases hstop : s = Status.STOP
        · subst hstop
          simp only [moduleLoop, hinv, hrec, andThen_done, if_true, Step.done.injEq] at h
          obtain ⟨_, hg, hv⟩ := h
          subst hg hv
          refine ⟨[Event.moduleRun m.moduleId g (some Status.STOP),
            Event.setModuleStatus g3.id m.moduleId Status.STOP], [(g.id, m.moduleId, Status.STOP)],
            by rw [hlog2, hlog]; simp, by rw [hok3, hms, hid], hid, ?_⟩
          intro hno
          exact absurd rfl (hno (m.moduleId, some Status.STOP) (by simp [Event.moduleCall]))
        · have hloop : ∀ rest, moduleLoop env (m :: pre ++ rest) b g v
              = moduleLoop env (pre ++ rest) (if s = Status.FAIL then true else b) g3 v3 := by
            intro rest
            simp [moduleLoop, hinv, hrec, hstop]
          have h1 := hloop []
          simp only [List.append_nil] at h1
          rw [h1] at h
          obtain ⟨L, R, hL, hR, hid3, hrest⟩ := ih _ g3 v3 b1 g1 v1 h
          refine ⟨[Event.moduleRun m.moduleId g (some s),
            Event.setModuleStatus g3.id m.moduleId s] ++ L, [(g.id, m.moduleId, s)] ++ R,
            by rw [hL, hlog2, hlog]; simp, by rw [hR, hok3, hms, hid]; simp,
            hid3.trans hid, ?_⟩
          intro hno
          have hno1 : ∀ c ∈ moduleCalls L, c.2 ≠ some Status.STOP := fun c hc =>
            hno c (by simp [Event.moduleCall, hc])
          obtain ⟨hc1, hr1, hgo⟩ := hrest hno1
          refine ⟨by simp [Event.moduleCall, hc1], ?_, ?_⟩
          · rw [hid] at hr1
            simp [hr1]
          · intro rest
            rw [hloop rest, hgo rest]

/-- Whatever call threw in the `try` block, `run` throws the same exception, the persisted
status is `ANALYSIS_FAILED`, and the handler adds its two calls and no module record. -/
theorem run_fault_general (p : TskFileAnalysisPipeline) (env : Services)
    (f : TskFile) (w : World) (e : Fault)
    (hne : p.m_modules ≠ [])
    (hthrow : (tryBlock p env f w).thrown = some e) :
    (p.run env (some f) w).raised = some e ∧
    (p.run env (some f) w).world.fileStatus f.id = FILE_STATUS.ANALYSIS_FAILED ∧
    (p.run env (some f) w).newEvents w = (tryBlock p env f w).world.log.drop w.log.length
      ++ [Event.logError f.id e, Event.updateFileStatus f.id FILE_STATUS.ANALYSIS_FAILED] ∧
    (p.run env (some f) w).world.moduleStatus = (tryBlock p env f w).world.moduleStatus ∧
    Tracks p.m_modules f.id ((p.run env (some f) w).newEvents w)
      ((p.run env (some f) w).newRecords w) := by
  obtain ⟨hraised, _, hms, hlog, _, hfs⟩ := run_spec p env f w hne
  obtain ⟨hid, _, L, R, hL, hR, hT⟩ := tryBlock_follows p env f w
  have hnew : (p.run env (some f) w).newEvents w
      = L ++ [Event.logError f.id e, Event.updateFileStatus f.id FILE_STATUS.ANALYSIS_FAILED] := by
    rw [Outcome.newEvents, hlog, hL, hthrow, hid, List.append_assoc, List.drop_left]
    rfl
  refine ⟨by rw [hraised, hthrow], ?_, ?_, hms, ?_⟩
  · rw [hfs (by simp [hthrow]), hid]
    simp
  · rw [hnew, hL, List.drop_left]
  · rw [hnew, Outcome.newRecords, hms, hR, List.drop_left]
    simpa [Tracks, Event.moduleCall] using hT

/-- When the run reaches the call of `m` in the state `(g, v)`, the `try` block is the loop
over `m` and the modules after it from `(g, v)`, followed by the cleanup and the final
status write; the calls so far are those before the loop and one call and one record write
for each module before `m`. -/
theorem reachesModule_spec (p : TskFileAnalysisPipeline) (env : Services) (f : TskFile)
    (w : World) (pre : List TskModule) (m : TskModule) (post : List TskModule) (g : TskFile)
    (v : World) (h : ReachesModule p env f w pre m post g v) :
    ∃ b L R, v.log = w.log ++ (entryEvents p f ++ L) ∧ v.moduleStatus = w.moduleStatus ++ R ∧
      g.id = f.id ∧
      (moduleCalls L).map Prod.fst = pre.map TskModule.moduleId ∧
      R.map (fun r => (r.1, r.2.1)) = pre.map (fun x => (f.id, x.moduleId)) ∧
      tryBlock p env f w = (moduleLoop env (m :: post) b g v).andThen
        fun b f w => (cleanup env f w).andThen fun _ f w => finalStatus env b f w := by
  obtain ⟨henters, hlist, ⟨b, hpre⟩, hno⟩ := h
  obtain ⟨L, R, hL, hR, hid, hrest⟩ := moduleLoop_prefix env pre false (entryFile p f)
    (entryWorld p f w) b g v hpre
  rw [hL, List.drop_left] at hno
  obtain ⟨hc, hr, hgo⟩ := hrest hno
  refine ⟨b, L, R, by rw [hL]; simp [entryWorld], by rw [hR]; rfl, hid, hc, hr, ?_⟩
  rw [tryBlock_enters p env f w henters, hlist, hgo]

theorem drop_of_append {α : Type} (a b c : List α) (h : c = a ++ b) : c.drop a.length = b := by
  rw [h, List.drop_left]

/-- C5: for a non-empty module list, whatever call of the `try` block of `run` throws `e`,
`run` throws the same `e`, the persisted status of the file is `ANALYSIS_FAILED`, and the
handler adds the error log entry and that status commit and no module record. And for each
call that can throw, when it throws `e` in the state in which it is made, the calls of `run`
end with that call followed by the two calls of the handler: the exclusion check; the status
write of an excluded file; the status write of `ANALYSIS_IN_PROGRESS`; `saveFile`; a
module (the modules before it are called and recorded once each, it has no record, and no
module after it is called); a module record write (likewise); `deleteFile`; and the final
status write. -/
theorem run_fault_commits_failed_and_rethrows (p : TskFileAnalysisPipeline) (env : Services)
    (f : TskFile) (w : World)
    (hne : p.m_modules ≠ []) :
    (∀ e, (tryBlock p env f w).thrown = some e →
      (p.run env (some f) w).raised = some e ∧
      (p.run env (some f) w).world.fileStatus f.id = FILE_STATUS.ANALYSIS_FAILED ∧
      (p.run env (some f) w).newEvents w = (tryBlock p env f w).world.log.drop w.log.length
        ++ [Event.logError f.id e, Event.updateFileStatus f.id FILE_STATUS.ANALYSIS_FAILED] ∧
      (p.run env (some f) w).world.moduleStatus = (tryBlock p env f w).world.moduleStatus ∧
      Tracks p.m_modules f.id ((p.run env (some f) w).newEvents w)
        ((p.run env (some f) w).newRecords w)) ∧
    (∀ e, env.excludeFile f w = .error e →
      FaultOutcome (p.run env (some f) w) w f.id e [Event.excludeFile f.id] []) ∧
    (∀ e, env.excludeFile f w = .ok true →
      env.setStatus f FILE_STATUS.ANALYSIS_SKIPPED (w.emit (Event.excludeFile f.id)) = some e →
      FaultOutcome (p.run env (some f) w) w f.id e
        [Event.excludeFile f.id, Event.setStatus f.id FILE_STATUS.ANALYSIS_SKIPPED] []) ∧
    (∀ e, env.excludeFile f w = .ok false → f.status = FILE_STATUS.READY_FOR_ANALYSIS →
      env.setStatus f FILE_STATUS.ANALYSIS_IN_PROGRESS (w.emit (Event.excludeFile f.id)) = some e →
      FaultOutcome (p.run env (some f) w) w f.id e
        [Event.excludeFile f.id, Event.setStatus f.id FILE_STATUS.ANALYSIS_IN_PROGRESS] []) ∧
    (∀ e, env.excludeFile f w = .ok false → f.status = FILE_STATUS.READY_FOR_ANALYSIS →
      env.setStatus f FILE_STATUS.ANALYSIS_IN_PROGRESS (w.emit (Event.excludeFile f.id)) = none →
      p.m_hasExeModule = true → f.fileExists = false →
      env.saveFile { f with status := FILE_STATUS.ANALYSIS_IN_PROGRESS } (saveWorld f w) = some e →
      FaultOutcome (p.run env (some f) w) w f.id e
        [Event.excludeFile f.id, Event.setStatus f.id FILE_STATUS.ANALYSIS_IN_PROGRESS,
          Event.saveFile f.id] []) ∧
    (∀ e pre m post g v, ReachesModule p env f w pre m post g v →
      (m.run g v).result = .error e →
      FaultOutcome (p.run env (some f) w) w f.id e
        (v.log.drop w.log.length ++ [Event.moduleRun m.moduleId g none])
        (v.moduleStatus.drop w.moduleStatus.length) ∧
      (moduleCalls ((p.run env (some f) w).newEvents w)).map Prod.fst
        = (pre ++ [m]).map TskModule.moduleId ∧
      ((p.run env (some f) w).newRecords w).map (fun r => (r.1, r.2.1))
        = pre.map (fun x => (f.id, x.moduleId))) ∧
    (∀ e pre m post g v s, ReachesModule p env f w pre m post g v →
      (m.run g v).result = .ok s →
      env.setModuleStatus f.id m.moduleId s (m.invoke g v).world = some e →
      FaultOutcome (p.run env (some f) w) w f.id e
        (v.log.drop w.log.length ++ [Event.moduleRun m.moduleId g (some s),
          Event.setModuleStatus f.id m.moduleId s])
        (v.moduleStatus.drop w.moduleStatus.length) ∧
      (moduleCalls ((p.run env (some f) w).newEvents w)).map Prod.fst
        = (pre ++ [m]).map TskModule.moduleId ∧
      ((p.run env (some f) w).newRecords w).map (fun r => (r.1, r.2.1))
        = pre.map (fun x => (f.id, x.moduleId))) ∧
    (∀ e b g v, Enters p env f w →
      moduleLoop env p.m_modules false (entryFile p f) (entryWorld p f w) = .done b g v →
      g.typeId ≠ FILE_TYPES.CARVED → g.typeId ≠ FILE_TYPES.DERIVED → g.fileExists = true →
      env.deleteFile g v = some e →
      FaultOutcome (p.run env (some f) w) w f.id e
        (v.log.drop w.log.length ++ [Event.deleteFile f.id])
        (v.moduleStatus.drop w.moduleStatus.length)) ∧
    (∀ e b g v g2 v2, Enters p env f w →
      moduleLoop env p.m_modules false (entryFile p f) (entryWorld p f w) = .done b g v →
      cleanup env g v = .done () g2 v2 → g2.status = FILE_STATUS.ANALYSIS_IN_PROGRESS →
      env.setStatus g2 (if b then FILE_STATUS.ANALYSIS_FAILED else FILE_STATUS.ANALYSIS_COMPLETE)
        v2 = some e →
      FaultOutcome (p.run env (some f) w) w f.id e
        (v2.log.drop w.log.length ++ [Event.setStatus f.id
          (if b then FILE_STATUS.ANALYSIS_FAILED else FILE_STATUS.ANALYSIS_COMPLETE)])
        (v2.moduleStatus.drop w.moduleStatus.length)) := by
  refine ⟨fun e h => run_fault_general p env f w e hne h, ?_, ?_, ?_, ?_, ?_, ?_, ?_, ?_⟩
  · intro e hexcl
    refine faultOutcome_of_threw p env f w hne e f (w.emit (Event.excludeFile f.id)) _ _ ?_ rfl
      rfl (by simp [World.emit])
    simp [tryBlock, excludeFile, hexcl]
  · intro e hexcl hset
    refine faultOutcome_of_threw p env f w hne e f
      ((w.emit (.excludeFile f.id)).emit (.setStatus f.id FILE_STATUS.ANALYSIS_SKIPPED)) _ _ ?_ rfl
      (by simp [World.emit]) (by simp [World.emit])
    simp only [tryBlock, excludeFile, hexcl, andThen_done, if_true, setStatus, hset]
  · intro e hexcl hready hset
    refine faultOutcome_of_threw p env f w hne e f
      ((w.emit (.excludeFile f.id)).emit (.setStatus f.id FILE_STATUS.ANALYSIS_IN_PROGRESS)) _ _ ?_
      rfl (by simp [World.emit]) (by simp [World.emit])
    simp only [tryBlock, excludeFile, hexcl, andThen_done, Bool.false_eq_true, if_false, hready,
      ne_eq, not_true_eq_false, setStatus, hset, andThen_threw]
  · intro e hexcl hready hset hflag hnot hsave
    refine faultOutcome_of_threw p env f w hne e { f with status := FILE_STATUS.ANALYSIS_IN_PROGRESS }
      ((saveWorld f w).emit (Event.saveFile f.id)) _ _ ?_
      rfl (by simp [saveWorld, World.emit, World.updateFileStatus])
      (by simp [saveWorld, World.emit, World.updateFileStatus])
    simp only [tryBlock, excludeFile, hexcl, andThen_done, Bool.false_eq_true, if_false, hready,
      ne_eq, not_true_eq_false, setStatus, hset, materialize, hflag, hnot, Bool.not_false,
      Bool.and_self, if_true, saveFile]
    simp only [saveWorld, hnot] at hsave
    rw [hsave]
    rfl
  · intro e pre m post g v hreach hthrow
    obtain ⟨b, L, R, hL, hR, hid, hc, hr, ht⟩ := reachesModule_spec p env f w pre m post g v hreach
    obtain ⟨g1, v1, hinv, hid1, hlog1, hms1⟩ := invoke_threw m g v e hthrow
    have ht1 : tryBlock p env f w = .threw e g1 v1 := by
      rw [ht]
      simp [moduleLoop, hinv]
    have hout := faultOutcome_of_threw p env f w hne e g1 v1
      (v.log.drop w.log.length ++ [Event.moduleRun m.moduleId g none])
      (v.moduleStatus.drop w.moduleStatus.length) ht1 (hid1.trans hid)
      (by rw [hlog1, drop_of_append _ _ _ hL, hL]; simp)
      (by rw [hms1, drop_of_append _ _ _ hR, hR])
    refine ⟨hout, ?_, ?_⟩
    · rw [hout.2.2.1, drop_of_append _ _ _ hL]
      simp [moduleCalls_entryEvents, Event.moduleCall, hc]
    · rw [hout.2.2.2, drop_of_append _ _ _ hR, hr]
  · intro e pre m post g v s hreach hret hwrite
    obtain ⟨b, L, R, hL, hR, hid, hc, hr, ht⟩ := reachesModule_spec p env f w pre m post g v hreach
    obtain ⟨g1, v1, hinv, hid1, hlog1, hms1⟩ := invoke_returned m g v s hret
    rw [hinv] at hwrite
    simp only [Step.world] at hwrite
    have ht1 : tryBlock p env f w = .threw e g1
        (v1.emit (Event.setModuleStatus f.id m.moduleId s)) := by
      rw [ht]
      simp [moduleLoop, hinv, setModuleStatus, hid1, hid, hwrite]
    have hout := faultOutcome_of_threw p env f w hne e g1
      (v1.emit (Event.setModuleStatus f.id m.moduleId s))
      (v.log.drop w.log.length ++ [Event.moduleRun m.moduleId g (some s),
        Event.setModuleStatus f.id m.moduleId s])
      (v.moduleStatus.drop w.moduleStatus.length) ht1 (hid1.trans hid)
      (by rw [drop_of_append _ _ _ hL]; simp [World.emit, hlog1, hL])
      (by rw [drop_of_append _ _ _ hR]; simp [World.emit, hms1, hR])
    refine ⟨hout, ?_, ?_⟩
    · rw [hout.2.2.1, drop_of_append _ _ _ hL]
      simp [moduleCalls_entryEvents, Event.moduleCall, hc]
    · rw [hout.2.2.2, drop_of_append _ _ _ hR, hr]
  · intro e b g v henters hloop hc hd hx hdel
    obtain ⟨hid, _, L, R, hL, hR, _, _⟩ :=
      moduleLoop_tracks env p.m_modules false (entryFile p f) (entryWorld p f w)
    rw [hloop] at hid hL hR
    simp only [Step.file, Step.world] at hid hL hR
    have hid1 : g.id = f.id := hid
    have hL1 : v.log = w.log ++ (entryEvents p f ++ L) := by rw [hL]; simp [entryWorld]
    have hR1 : v.moduleStatus = w.moduleStatus ++ R := hR
    have ht1 : tryBlock p env f w = .threw e g (v.emit (Event.deleteFile f.id)) := by
      rw [tryBlock_enters p env f w henters, hloop]
      simp [cleanup, hc, hd, hx, deleteFile, hdel, hid1]
    exact faultOutcome_of_threw p env f w hne e g (v.emit (Event.deleteFile f.id)) _ _ ht1 hid1
      (by rw [drop_of_append _ _ _ hL1]; simp [World.emit, hL1])
      (by rw [drop_of_append _ _ _ hR1]; simp [World.emit, hR1])
  · intro e b g v g2 v2 henters hloop hclean hst hset
    obtain ⟨hid, _, L, R, hL, hR, _, _⟩ :=
      moduleLoop_tracks env p.m_modules false (entryFile p f) (entryWorld p f w)
    rw [hloop] at hid hL hR
    simp only [Step.file, Step.world] at hid hL hR
    have hid1 : g.id = f.id := hid
    obtain ⟨hq1, _, hq3, X, hX, _⟩ : Quiet g v g2 v2 := by
      have : Quiet g v (cleanup env g v).file (cleanup env g v).world := by
        unfold cleanup
        split
        · exact deleteFile_quiet env g v
        · exact quiet_refl g v
      rw [hclean] at this
      exact this
    have hid2 : g2.id = f.id := hq1.trans hid1
    have hL2 : v2.log = w.log ++ (entryEvents p f ++ L ++ X) := by
      rw [hX, hL]
      simp [entryWorld]
    have hR2 : v2.moduleStatus = w.moduleStatus ++ R := by rw [hq3, hR]; rfl
    have ht1 : tryBlock p env f w = .threw e g2 (v2.emit (Event.setStatus f.id
        (if b then FILE_STATUS.ANALYSIS_FAILED else FILE_STATUS.ANALYSIS_COMPLETE))) := by
      rw [tryBlock_enters p env f w henters, hloop]
      simp only [andThen_done, hclean, finalStatus, hst, if_true]
      cases b <;> simp [setStatus, hid2] at hset ⊢ <;> simp [hset]
    exact faultOutcome_of_threw p env f w hne e g2 _ _ _ ht1 hid2
      (by rw [drop_of_append _ _ _ hL2]; simp [World.emit, hL2])
      (by rw [drop_of_append _ _ _ hR2]; simp [World.emit, hR2])

/-- Witness for C5: a module that throws after a module that returned; a module record write
that throws, after which no module is called; and an exclusion check that throws before
the status was set in progress. -/
theorem run_fault_commits_failed_and_rethrows_witness :
    ((pipelineOkThrowOk.run quietServices (some readyFile) freshWorld).raised
        = some (Fault.exception 42) ∧
      (pipelineOkThrowOk.run quietServices (some readyFile) freshWorld).world.fileStatus 7
        = FILE_STATUS.ANALYSIS_FAILED ∧
      (moduleCalls ((pipelineOkThrowOk.run quietServices (some readyFile) freshWorld).newEvents
        freshWorld)).map Prod.fst = [1, 2] ∧
      (pipelineOkThrowOk.run quietServices (some readyFile) freshWorld).newRecords freshWorld
        = [(7, 1, Status.OK)] ∧
      ((pipelineOkThrowOk.run quietServices (some readyFile) freshWorld).newEvents freshWorld).drop 5
        = [Event.moduleRun 2 (entryFile pipelineOkThrowOk readyFile) none,
            Event.logError 7 (Fault.exception 42),
            Event.updateFileStatus 7 FILE_STATUS.ANALYSIS_FAILED]) ∧
    ((pipelineOkThrowOk.run throwingRecords (some readyFile) freshWorld).raised
        = some (Fault.exception 5) ∧
      (pipelineOkThrowOk.run throwingRecords (some readyFile) freshWorld).newRecords freshWorld
        = [] ∧
      (pipelineOkThrowOk.run throwingRecords (some readyFile) freshWorld).newEvents freshWorld
        = [Event.excludeFile 7, Event.setStatus 7 FILE_STATUS.ANALYSIS_IN_PROGRESS,
            Event.saveFile 7, Event.moduleRun 1 (entryFile pipelineOkThrowOk readyFile) (some Status.OK),
            Event.setModuleStatus 7 1 Status.OK, Event.logError 7 (Fault.exception 5),
            Event.updateFileStatus 7 FILE_STATUS.ANALYSIS_FAILED]) ∧
    FaultOutcome (pipelineOkThrowOk.run throwingExclusion (some readyFile) freshWorld) freshWorld 7
      (Fault.exception 13) [Event.excludeFile 7] [] := by
  have hmod := (run_fault_commits_failed_and_rethrows pipelineOkThrowOk quietServices readyFile
    freshWorld (by simp [pipelineOkThrowOk])).2.2.2.2.2.1 (Fault.exception 42)
    [constModule 1 .OK] (throwingModule 2 42) [constModule 3 .OK]
    (moduleLoop quietServices [constModule 1 .OK] false (entryFile pipelineOkThrowOk readyFile)
      (entryWorld pipelineOkThrowOk readyFile freshWorld)).file
    (moduleLoop quietServices [constModule 1 .OK] false (entryFile pipelineOkThrowOk readyFile)
      (entryWorld pipelineOkThrowOk readyFile freshWorld)).world
    ⟨⟨rfl, rfl, rfl, fun _ _ => rfl⟩, rfl, ⟨false, rfl⟩, by decide⟩ rfl
  have hrec := (run_fault_commits_failed_and_rethrows pipelineOkThrowOk throwingRecords readyFile
    freshWorld (by simp [pipelineOkThrowOk])).2.2.2.2.2.2.1 (Fault.exception 5)
    [] (constModule 1 .OK) [throwingModule 2 42, constModule 3 .OK]
    (entryFile pipelineOkThrowOk readyFile) (entryWorld pipelineOkThrowOk readyFile freshWorld)
    Status.OK ⟨⟨rfl, rfl, rfl, fun _ _ => rfl⟩, rfl, ⟨false, rfl⟩, by decide⟩ rfl rfl
  have hexcl := (run_fault_commits_failed_and_rethrows pipelineOkThrowOk throwingExclusion
    readyFile freshWorld (by simp [pipelineOkThrowOk])).2.1 (Fault.exception 13) rfl
  exact ⟨⟨hmod.1.1, hmod.1.2.1, hmod.2.1, hmod.1.2.2.2.trans (by decide), by decide⟩,
    ⟨hrec.1.1, hrec.1.2.2.2.trans (by decide), hrec.1.2.2.1.trans (by decide)⟩, hexcl⟩

end Tsk
